import Mathlib

/-!
Verification development for the Editra style-sheet engine (`src/ed_style.py`).

The Python module is shallowly embedded: strings are `List Char`, Python
dictionaries are association lists (`List (key × value)`) preserving insertion
order, in-place mutation is explicit state passing, and every Python statement
that can raise is modelled in the `Except PyErr` monad.  The embedded
definitions follow the source line by line, including its quirks:

* `x in "face fore back size modifiers"` is a *substring* test;
* `RE_HEX_STR.match` / `RE_ESS_SCALAR.match` anchor only at the start
  (prefix match);
* the level-1 syntax check iterates over the very list it removes from,
  so consecutive malformed blocks are skipped (CPython list-iterator
  semantics);
* the log-message expression `style[0].split()[0]` raises `IndexError`
  when a malformed block's head has no whitespace token;
* `StyleItem.__init__` never reads its `ex` argument, so built-in default
  items carry no modifiers.
-/

set_option maxRecDepth 20000
set_option maxHeartbeats 2000000

/-- Strings of the embedded program are plain lists of characters. -/
abbrev Str := List Char

/-- Convert a Lean string literal to the embedded string type. -/
def chars (s : String) : Str := s.data

/-- Whitespace in the sense of Python `str.strip` / `str.split()`. -/
def pyIsSpace (c : Char) : Bool :=
  c = ' ' || c = '\t' || c = '\n' || c = '\r' || c = '\x0b' || c = '\x0c'

/-- Python `s.split(sep)` for a one-character separator: splits on every
occurrence, keeping empty pieces, and yields at least one piece. -/
def splitOnChar (sep : Char) : Str → List Str
  | [] => [[]]
  | c :: rest =>
    if c = sep then [] :: splitOnChar sep rest
    else
      match splitOnChar sep rest with
      | [] => [[c]]
      | h :: t => (c :: h) :: t

/-- Helper for `pySplitWS`: accumulates the current token (reversed). -/
def pySplitWSAux : Str → Str → List Str
  | [], acc => if acc = [] then [] else [acc.reverse]
  | c :: rest, acc =>
    if pyIsSpace c then
      if acc = [] then pySplitWSAux rest []
      else acc.reverse :: pySplitWSAux rest []
    else pySplitWSAux rest (c :: acc)

/-- Python `s.split()` with no argument: split on whitespace runs, dropping
empty tokens. -/
def pySplitWS (s : Str) : List Str := pySplitWSAux s []

/-- Python `s.strip()`: remove leading and trailing whitespace. -/
def pyStrip (s : Str) : Str :=
  ((s.dropWhile pyIsSpace).reverse.dropWhile pyIsSpace).reverse

/-- Python `s.strip(",")`: remove leading and trailing commas. -/
def stripCommas (s : Str) : Str :=
  ((s.dropWhile (· = ',')).reverse.dropWhile (· = ',')).reverse

/-- Python `s.rstrip(",")`: remove trailing commas only. -/
def rstripComma (s : Str) : Str :=
  (s.reverse.dropWhile (· = ',')).reverse

/-- List-prefix test used to implement Python's substring operator. -/
def isPrefixList : Str → Str → Bool
  | [], _ => true
  | _ :: _, [] => false
  | a :: as, b :: bs => a = b && isPrefixList as bs

/-- Python `needle in haystack` on strings: substring containment (the empty
string is a substring of everything). -/
def pySubstr (needle : Str) : Str → Bool
  | [] => isPrefixList needle []
  | c :: rest => isPrefixList needle (c :: rest) || pySubstr needle rest

/-- Python `"%s" % ...` style joining with commas (`u",".join`). -/
def joinComma : List Str → Str
  | [] => []
  | [x] => x
  | x :: y :: t => x ++ ',' :: joinComma (y :: t)

/-- Python `u" ".join`. -/
def joinSpace : List Str → Str
  | [] => []
  | [x] => x
  | x :: y :: t => x ++ ' ' :: joinSpace (y :: t)

/-- Hex digit in the sense of the character class `[0-9a-fA-F]`. -/
def isHexC (c : Char) : Bool :=
  c.isDigit || ('a' ≤ c && c ≤ 'f') || ('A' ≤ c && c ≤ 'F')

/-- `RE_HEX_STR.match(v)`: the pattern `#[0-9a-fA-F]{3,6}` anchored at the
start succeeds exactly when the value begins with `#` followed by at least
three hex digits (`re.match` does not anchor the end). -/
def hexMatch : Str → Bool
  | c0 :: c1 :: c2 :: c3 :: _ => c0 == '#' && isHexC c1 && isHexC c2 && isHexC c3
  | _ => false

/-- Character class `[a-zA-Z0-9]` of `RE_ESS_SCALAR`. -/
def isAlnumC (c : Char) : Bool := c.isAlpha || c.isDigit

/-- Tail of `RE_ESS_SCALAR`: one or more alphanumerics followed by `)`. -/
def scalarTailMatch (s : Str) : Bool :=
  let run := s.takeWhile isAlnumC
  run ≠ [] && (s.dropWhile isAlnumC).head? = some ')'

/-- `RE_ESS_SCALAR.match(v)`: prefix match of `\%\([a-zA-Z0-9]+\)`. -/
def scalarMatch : Str → Bool
  | '%' :: '(' :: rest => scalarTailMatch rest
  | _ => false

/-- Python `s.isdigit()` (ASCII): nonempty and all digits. -/
def isDigitStr (s : Str) : Bool := s ≠ [] && s.all Char.isDigit

/-- Python `str.replace("\r\n", "")`: left-to-right non-overlapping removal. -/
def removeCRLF : Str → Str
  | '\r' :: '\n' :: rest => removeCRLF rest
  | c :: rest => c :: removeCRLF rest
  | [] => []

/-- Python `str.replace(c, "")` for a single character. -/
def filterOutChar (c : Char) (s : Str) : Str := s.filter (· ≠ c)

/-- Python `str.replace("modifiers:", "")`: removes every occurrence of the
ten-character label, scanning left to right. -/
def removeModLabel : Str → Str
  | 'm' :: 'o' :: 'd' :: 'i' :: 'f' :: 'i' :: 'e' :: 'r' :: 's' :: ':' :: rest =>
      removeModLabel rest
  | c :: rest => c :: removeModLabel rest
  | [] => []

/-- Scan for the first `*/` terminator; returns the remainder after it, as
matched by the tail `\*+([^/][^*]*\*+)*\/` of `RE_ESS_COMMENT`. -/
def findCommentEnd : Str → Option Str
  | '*' :: '/' :: rest => some rest
  | _ :: rest => findCommentEnd rest
  | [] => none

/-- Fuel-driven worker for `stripComments` (fuel bounds the input length, so
recursion on a non-structural suffix stays structural in the fuel). -/
def stripCommentsFuel : Nat → Str → Str
  | 0, s => s
  | fuel + 1, s =>
    match s with
    | '/' :: '*' :: rest =>
      match findCommentEnd rest with
      | some rem => stripCommentsFuel fuel rem
      | none => '/' :: '*' :: stripCommentsFuel fuel rest
    | c :: rest => c :: stripCommentsFuel fuel rest
    | [] => []

/-- `RE_ESS_COMMENT.sub('', data)`: remove every block comment, i.e. every
segment from a `/*` to the first following `*/`; an unterminated `/*` is
left in place (the regex cannot match it). -/
def stripComments (s : Str) : Str := stripCommentsFuel (s.length + 1) s

/-! ### Insertion-ordered dictionaries

Python dictionaries are modelled as association lists in insertion order;
`alSet` is `d[k] = v` (update in place, else append), `alLookup` is `d[k]` /
`d.get(k)`.  (The source runs on Python 2, whose dictionaries iterate in an
unspecified hash order; no claim below depends on iteration order.) -/

/-- First-occurrence lookup in an association list. -/
def alLookup {α : Type} (k : Str) : List (Str × α) → Option α
  | [] => none
  | (k', v) :: t => if k' = k then some v else alLookup k t

/-- Python `d[k] = v`: overwrite the first binding of `k`, else append. -/
def alSet {α : Type} (k : Str) (v : α) : List (Str × α) → List (Str × α)
  | [] => [(k, v)]
  | (k', v') :: t => if k' = k then (k, v) :: t else (k', v') :: alSet k v t

/-- Value-map preserving keys (used for in-place loops over `dict` values). -/
def alMapVals {α β : Type} (f : α → β) (l : List (Str × α)) : List (Str × β) :=
  l.map (fun p => (p.1, f p.2))

/-- Python `list.remove(x)`: drop the first element equal to `x`. -/
def removeFirst {α : Type} [DecidableEq α] (a : α) : List α → List α
  | [] => []
  | x :: t => if x = a then t else x :: removeFirst a t

/-! ### StyleItem -/

/-- The value `STY_ATTRIBUTES` from the source. -/
def STY_ATTRIBUTES : Str := chars "face fore back size modifiers"

/-- The value `STY_EX_ATTRIBUTES` from the source. -/
def STY_EX_ATTRIBUTES : Str := chars "eol bold italic underline"

/-- Storage class `StyleItem`: scalar attributes, modifier list `_exattr`
(insertion order preserved) and the `null` flag. -/
structure StyleItem where
  null : Bool
  fore : Str
  face : Str
  back : Str
  size : Str
  exattr : List Str
deriving DecidableEq, Repr

/-- `StyleItem()` with no arguments: non-null, everything empty. -/
def emptyStyleItem : StyleItem :=
  { null := false, fore := [], face := [], back := [], size := [], exattr := [] }

/-- `NullStyleItem()`: an empty item with the `null` flag set. -/
def nullStyleItem : StyleItem :=
  { null := true, fore := [], face := [], back := [], size := [], exattr := [] }

/-- `StyleItem.SetExAttr(ex)` (add direction): sets `null = False`, then
appends `ex` to `_exattr` provided `ex` passes the *substring* test against
`STY_EX_ATTRIBUTES` and is not already present. -/
def setExAttr (it : StyleItem) (ex : Str) : StyleItem :=
  let it := { it with null := false }
  if pySubstr ex STY_EX_ATTRIBUTES then
    if ex ∈ it.exattr then it else { it with exattr := it.exattr ++ [ex] }
  else it

/-- The `setattr(self, attrib[0], attrib[1])` step of `SetAttrFromStr`: only
the four real fields change; any other (substring-accepted) name creates a
dynamic attribute invisible to the rest of the class. -/
def setScalarField (it : StyleItem) (a v : Str) : StyleItem :=
  if a = chars "fore" then { it with fore := v }
  else if a = chars "face" then { it with face := v }
  else if a = chars "back" then { it with back := v }
  else if a = chars "size" then { it with size := v }
  else it

/-- One atom of `SetAttrFromStr`'s loop; the state is the item together with
`last_set`. -/
def setAttrAtom (acc : StyleItem × Str) (atom : Str) : StyleItem × Str :=
  let attrib := splitOnChar ':' atom
  match attrib with
  | [a, v] =>
    if pySubstr a STY_ATTRIBUTES then
      if a = chars "modifiers" then (setExAttr acc.1 v, a)
      else (setScalarField acc.1 a v, a)
    else
      (attrib.foldl (fun it w => if pySubstr w STY_EX_ATTRIBUTES then setExAttr it w else it) acc.1,
       acc.2)
  | _ =>
    (attrib.foldl (fun it w => if pySubstr w STY_EX_ATTRIBUTES then setExAttr it w else it) acc.1,
     acc.2)

/-- `StyleItem.SetAttrFromStr(style_str)`: splits on commas, processes each
atom, and reports whether any recognised attribute name was set. -/
def setAttrFromStr (it : StyleItem) (s : Str) : StyleItem × Bool :=
  let r := (splitOnChar ',' s).foldl setAttrAtom ({ it with null := false }, [])
  (r.1, r.2 ≠ [])

/-- `StyleItem.__str__`: attributes in the fixed order fore, back, face,
size, then labelled modifiers; comma-joined and right-stripped of commas. -/
def styleItemStr (it : StyleItem) : Str :=
  let parts : List Str :=
    (if it.fore ≠ [] then [chars "fore:" ++ it.fore] else []) ++
    (if it.back ≠ [] then [chars "back:" ++ it.back] else []) ++
    (if it.face ≠ [] then [chars "face:" ++ it.face] else []) ++
    (if it.size ≠ [] then [chars "size:" ++ it.size] else []) ++
    (if it.exattr ≠ [] then [chars "modifiers:" ++ joinComma it.exattr] else [])
  rstripComma (joinComma parts)

/-- `StyleItem.SetNamedAttr(attr, value)` restricted to the four scalar
attributes (as used by the constructor): a comma in the value diverts the
trailing pieces to `SetExAttr`. -/
def setNamedAttr (it : StyleItem) (a v : Str) : StyleItem :=
  let it := { it with null := false }
  if a = chars "fore" ∨ a = chars "face" ∨ a = chars "back" ∨ a = chars "size" then
    let pieces := splitOnChar ',' v
    match pieces with
    | [] => setScalarField it a []
    | v0 :: exs => setScalarField (exs.foldl setExAttr it) a v0
  else it

/-- `StyleItem(fore, back, face, size, ex)`: the constructor assigns the four
scalar attributes through `SetNamedAttr`; the `ex` argument is *ignored* by
the source (`self._exattr = list()` is never updated from it). -/
def mkStyleItem (fore back face size : Str) : StyleItem :=
  setNamedAttr (setNamedAttr (setNamedAttr (setNamedAttr emptyStyleItem
    (chars "fore") fore) (chars "face") face) (chars "back") back) (chars "size") size

/-! ### Parser (`StyleMgr.ParseStyleData`) -/

/-- Exceptions that can escape the embedded methods.  The payloads record the
data interpolated into the Python messages. -/
inductive PyErr where
  /-- `IndexError`, e.g. from `style[0].split()[0]` on a blank block head or
  `style_def[0]` on an empty tag. -/
  | indexError
  /-- `SyntaxError, "Missing { or } near Def: %s"` with the first whitespace
  token of the malformed block. -/
  | missingBrace (tag : Str)
  /-- `SyntaxError, "Missing : or ; in def: %s"` with the block tag. -/
  | missingColon (tag : Str)
  /-- `SyntaxWarning, "Unknown attribute %s"` with the attribute name. -/
  | unknownAttr (attr : Str)
  /-- `SyntaxError, "%s is an invalid name"` with the tag's first character. -/
  | invalidName (c : Char)
  /-- `KeyError` from `StyleMgr.STYLES[self.style_set]`. -/
  | keyError
  /-- `AttributeError` from calling StyleItem methods on a non-StyleItem. -/
  | attributeError
  /-- `TypeError` / `ValueError` from `%`-formatting. -/
  | formatError
deriving DecidableEq, Repr

deriving instance DecidableEq for Except

/-- Newline/tab compaction plus comment stripping: the preprocessing of
`ParseStyleData` (lines 687-691 of the source). -/
def cleanText (s : Str) : Str :=
  filterOutChar '\t' (filterOutChar '\n' (removeCRLF (stripComments s)))

/-- Drop the final entry when its head piece is empty
(`if len(style_tree) and style_tree[-1][0] == wx.EmptyString: style_tree.pop()`,
also reused for the declaration lists). -/
def popBlank (tree : List (List Str)) : List (List Str) :=
  match tree.getLast? with
  | some (h :: _) => if h = [] then tree.dropLast else tree
  | _ => tree

/-- The level-1 tree: split on `}`, then split each piece on `{`, then drop a
trailing blank entry. -/
def l1TreeOf (text : Str) : List (List Str) :=
  popBlank ((splitOnChar '\x7d' (cleanText text)).map (splitOnChar '\x7b'))

/-- The level-1 syntax check (source lines 700-711).  CPython iterates the
list by an internal index that advances even after `list.remove`, so the
element following a removed block is skipped; the index `i` models that
internal counter and the fuel bounds the iteration count.  The log call's
argument `style[0].split()[0]` is evaluated in both modes and raises
`IndexError` when the malformed block's head has no whitespace token. -/
def l1Check (strict : Bool) : Nat → Nat → List (List Str) → Except PyErr (List (List Str))
  | 0, _, tree => .ok tree
  | fuel + 1, i, tree =>
    if h : i < tree.length then
      let style := tree[i]
      if style.length ≠ 2 then
        match style.head? with
        | none => .error .indexError
        | some h0 =>
          match pySplitWS h0 with
          | [] => .error .indexError
          | w :: _ =>
            if strict then .error (.missingBrace w)
            else l1Check strict fuel (i + 1) (removeFirst style tree)
      else l1Check strict fuel (i + 1) tree
    else .ok tree

/-- Split one block body into `:`-split declaration lists and drop a trailing
blank declaration (source lines 715-720). -/
def level2Body (body : Str) : List (List Str) :=
  popBlank ((splitOnChar ';' (pyStrip body)).map (fun leaf => splitOnChar ':' (pyStrip leaf)))

/-- Apply `level2Body` to every surviving branch.  A branch that reaches this
stage with fewer than two pieces (possible only for blocks skipped by the
level-1 removal) hits `branch[1]` and raises `IndexError`; pieces beyond the
second are ignored. -/
def l2Branches : List (List Str) → Except PyErr (List (Str × List (List Str)))
  | [] => .ok []
  | b :: rest =>
    match b with
    | [] => .error .indexError
    | [_] => .error .indexError
    | tag :: body :: _ => do
      let r ← l2Branches rest
      .ok ((tag, level2Body body) :: r)

/-- Filter the declarations of one block (source lines 728-742): keep a leaf
when it has exactly two stripped pieces and its attribute name passes the
substring test against `STY_ATTRIBUTES`; in strict mode the first violation
raises. -/
def filterDecls (strict : Bool) (tag : Str) : List (List Str) → Except PyErr (List (List Str))
  | [] => .ok []
  | leaf :: rest =>
    let leafS := leaf.map pyStrip
    match leafS with
    | [a, v] =>
      if pySubstr a STY_ATTRIBUTES then do
        let r ← filterDecls strict tag rest
        .ok ([a, v] :: r)
      else if strict then .error (.unknownAttr a)
      else filterDecls strict tag rest
    | _ =>
      if strict then .error (.missingColon tag)
      else filterDecls strict tag rest

/-- Build the tag-to-declarations dictionary (source lines 724-743); later
blocks with the same tag overwrite earlier ones. -/
def buildDict (strict : Bool) :
    List (Str × List (List Str)) → List (Str × List (List Str)) →
    Except PyErr (List (Str × List (List Str)))
  | acc, [] => .ok acc
  | acc, (tagRaw, decls) :: rest => do
    let tag := tagRaw.filter (· ≠ ' ')
    let value ← filterDecls strict tag decls
    buildDict strict (alSet tag value acc) rest

/-- Stages up to and including the tag dictionary of filtered declarations. -/
def preDict (text : Str) (strict : Bool) : Except PyErr (List (Str × List (List Str))) := do
  let tree := l1TreeOf text
  let tree ← l1Check strict (tree.length + 1) 0 tree
  let branches ← l2Branches tree
  buildDict strict [] branches

/-- Trim the leafless branches (source lines 746-750): every tag whose
declaration list is empty is removed from the dictionary. -/
def trimEmpty (d : List (Str × List (List Str))) : List (Str × List (List Str)) :=
  d.filter (fun p => !p.2.isEmpty)

/-- A dictionary value during validation: still a declaration list, or
already formatted into a style string. -/
inductive DVal where
  | decls (l : List (List Str))
  | strv (s : Str)
deriving DecidableEq, Repr

/-- Validate one declaration (source lines 762-810), returning the value
string to splice into the style string, or `none` when the declaration is
dropped.  The attribute dispatch mirrors the source's `if`/`elif` chain:
a substring test against `"fore back"` first, then equality with `size`,
`face` and `modifiers`. -/
def validateDecl (a v : Str) : Option Str :=
  let values := (pySplitWS v).filter (· ≠ [])
  match values with
  | [] => none
  | v0 :: vrest =>
    let values :=
      if pySubstr a (chars "fore back") then v0 :: vrest
      else if a = chars "size" then v0 :: vrest
      else if a = chars "face" then
        match vrest with
        | [] => v0 :: vrest
        | w :: _ =>
          if !pySubstr w STY_EX_ATTRIBUTES then
            joinSpace ((v0 :: vrest).takeWhile (fun x => !pySubstr x STY_EX_ATTRIBUTES)) ::
              (v0 :: vrest).dropWhile (fun x => !pySubstr x STY_EX_ATTRIBUTES)
          else v0 :: vrest
      else v0 :: vrest
    let v1ok :=
      if pySubstr a (chars "fore back") then hexMatch v0
      else if a = chars "size" then scalarMatch v0 || isDigitStr v0
      else if a = chars "face" then true
      else if a = chars "modifiers" then true
      else false
    let v2ok :=
      match values with
      | _ :: w :: _ => pySubstr w STY_EX_ATTRIBUTES
      | _ => false
    if v1ok && v2ok then some (joinComma values)
    else if v1ok then
      match values with
      | v0' :: _ => some v0'
      | [] => none
    else none

/-- Fold the accepted declarations of one block into the comma-led style
string (source lines 760-813). -/
def buildStyleStr (decls : List (List Str)) : Str :=
  decls.foldl
    (fun acc leaf =>
      match leaf with
      | [a, v] =>
        match validateDecl a v with
        | some value => acc ++ ',' :: (a ++ ':' :: value)
        | none => acc
      | _ => acc)
    []

/-- Validate one dictionary entry (source lines 753-816): an empty tag hits
`style_def[0]` and raises `IndexError`; a tag whose first character is not
alphabetic raises in strict mode and otherwise leaves the declaration list in
place; otherwise the entry becomes a style string unless every declaration
was dropped. -/
def validateEntry (strict : Bool) (tag : Str) (decls : List (List Str)) : Except PyErr DVal :=
  match tag with
  | [] => .error .indexError
  | c :: _ =>
    if !c.isAlpha then
      if strict then .error (.invalidName c) else .ok (.decls decls)
    else
      let s := buildStyleStr decls
      if s ≠ [] then .ok (.strv (stripCommas s)) else .ok (.decls decls)

/-- Validation pass over the whole dictionary, in order. -/
def validateAll (strict : Bool) : List (Str × List (List Str)) → Except PyErr (List (Str × DVal))
  | [] => .ok []
  | (tag, decls) :: rest => do
    let v ← validateEntry strict tag decls
    let r ← validateAll strict rest
    .ok ((tag, v) :: r)

/-- Final item construction (source lines 819-823): entries still holding a
declaration list become bare `StyleItem()`s; string entries go through
`SetAttrFromStr`. -/
def toItems (d : List (Str × DVal)) : List (Str × StyleItem) :=
  alMapVals
    (fun v =>
      match v with
      | .strv s => (setAttrFromStr emptyStyleItem s).1
      | .decls _ => emptyStyleItem)
    d

/-- `StyleMgr.ParseStyleData(style_data, strict)`. -/
def parseStyleData (text : Str) (strict : Bool) : Except PyErr (List (Str × StyleItem)) := do
  let d ← preDict text strict
  let d3 ← validateAll strict (trimEmpty d)
  .ok (toItems d3)

/-! ### Registry (`StyleMgr`) -/

/-- A value held in a style-set dictionary.  `SetStyles` accepts arbitrary
objects in `noMerge` mode, so cached sets may hold non-`StyleItem` values;
a stray Python string is the representative non-item. -/
inductive SDVal where
  | item (it : StyleItem)
  | pystr (s : Str)
deriving DecidableEq, Repr

/-- Whether a dictionary value passes `isinstance(style, StyleItem)`. -/
def SDVal.isItem : SDVal → Bool
  | .item _ => true
  | .pystr _ => false

/-- `unicode(x)` on a dictionary value. -/
def sdStr : SDVal → Str
  | .item it => styleItemStr it
  | .pystr s => s

/-- A value of the font dictionary (`self.fonts`): face names are strings,
point sizes integers. -/
inductive PyVal where
  | str (s : Str)
  | int (n : Nat)
deriving DecidableEq, Repr

/-- Decimal digits of a natural number (fuel-driven so the kernel can reduce
it; the fuel bounds the number of digits by the number itself). -/
def natDigitsFuel : Nat → Nat → Str
  | 0, _ => []
  | fuel + 1, n =>
    let d : Char := Char.ofNat (48 + n % 10)
    if n < 10 then [d] else natDigitsFuel fuel (n / 10) ++ [d]

/-- Python `str(n)` for a natural number. -/
def natToChars (n : Nat) : Str := natDigitsFuel (n + 1) n

/-- Render one `%`-conversion: `s` accepts both strings and integers, `d`
only integers. -/
def formatConv (conv : Char) (v : PyVal) : Except PyErr Str :=
  match conv, v with
  | 's', .str s => .ok s
  | 's', .int n => .ok (natToChars n)
  | 'd', .int n => .ok (natToChars n)
  | 'd', .str _ => .error .formatError
  | _, _ => .error .formatError

/-- Read a `%(key)conv` group: returns key, conversion character and rest. -/
def readFormatKey (s : Str) : Except PyErr (Str × Char × Str) :=
  let key := s.takeWhile (· ≠ ')')
  match s.dropWhile (· ≠ ')') with
  | ')' :: conv :: rest => .ok (key, conv, rest)
  | _ => .error .formatError

/-- Fuel-driven worker for `pyFormatMap`. -/
def pyFormatMapFuel (fonts : List (Str × PyVal)) : Nat → Str → Except PyErr Str
  | 0, s => .ok s
  | fuel + 1, s =>
    match s with
    | '%' :: '%' :: rest => do
      let r ← pyFormatMapFuel fonts fuel rest
      .ok ('%' :: r)
    | '%' :: '(' :: rest => do
      let (key, conv, after) ← readFormatKey rest
      match alLookup key fonts with
      | none => .error .keyError
      | some v => do
        let piece ← formatConv conv v
        let r ← pyFormatMapFuel fonts fuel after
        .ok (piece ++ r)
    | '%' :: _ => .error .formatError
    | c :: rest => do
      let r ← pyFormatMapFuel fonts fuel rest
      .ok (c :: r)
    | [] => .ok []

/-- Python `ival % self.fonts`: mapping-style string interpolation with the
`%(key)s` / `%(key)d` conversions used by style sheets. -/
def pyFormatMap (s : Str) (fonts : List (Str × PyVal)) : Except PyErr Str :=
  pyFormatMapFuel fonts (s.length + 1) s

/-- Per-instance and class state of `StyleMgr`: the process-wide `STYLES`
cache, the current sheet identity `style_set` and the font dictionary. -/
structure MgrState where
  styles : List (Str × List (Str × SDVal))
  styleSet : Str
  fonts : List (Str × PyVal)
deriving DecidableEq, Repr

/-- Copy one empty scalar attribute from the default item
(`SetFace`/`SetFore`/`SetBack`/`SetSize` under the emptiness guards). -/
def packFill (it d : StyleItem) : StyleItem :=
  { it with
    face := if it.face = [] then d.face else it.face,
    fore := if it.fore = [] then d.fore else it.fore,
    back := if it.back = [] then d.back else it.back,
    size := if it.size = [] then d.size else it.size }

/-- `StyleMgr.PackStyleSet(style_set)` on a set of `StyleItem`s: when a
`default_style` entry exists, every non-null item has its empty scalar
attributes copied from it; null items are skipped. -/
def packStyleSet (s : List (Str × StyleItem)) : List (Str × StyleItem) :=
  match alLookup (chars "default_style") s with
  | none => s
  | some d => alMapVals (fun it => if it.null then it else packFill it d) s

/-- Erase the `SDVal` wrapper under an all-items hypothesis. -/
def sdToItem : SDVal → StyleItem
  | .item it => it
  | .pystr _ => emptyStyleItem

/-- `PackStyleSet` on a raw dictionary: with a `default_style` entry present,
any non-`StyleItem` value makes `style_set[tag].IsNull()` (or the subsequent
attribute copying) raise `AttributeError`; with no `default_style` entry the
set is returned unchanged.  (Which offending tag raises first depends on
Python 2's hash order; only the error's type is observable here.) -/
def packStyleSetRaw (d : List (Str × SDVal)) : Except PyErr (List (Str × SDVal)) :=
  match alLookup (chars "default_style") d with
  | none => .ok d
  | some _ =>
    if d.all (fun p => p.2.isItem) then
      .ok (alMapVals SDVal.item (packStyleSet (alMapVals sdToItem d)))
    else .error .attributeError

/-- The built-in `DEF_STYLE_DICT`.  Every `ex=[...]` argument in the source
is ignored by the constructor, so no item carries modifiers.
`stringeol_style` passes its modifier list as the positional `size` argument;
the model stores that value's Python string rendering `['bold', 'eol']`,
which is how the rest of the module observes it (`__str__`, comparisons
against the empty string). -/
def stringeolSize : Str :=
  let q : Str := [Char.ofNat 39]
  chars "[" ++ q ++ chars "bold" ++ q ++ chars ", " ++ q ++ chars "eol" ++ q ++ chars "]"

/-- The source's built-in default style dictionary (literal order). -/
def DEF_STYLE_DICT : List (Str × StyleItem) :=
  [ (chars "brace_good", mkStyleItem (chars "#FFFFFF") (chars "#0000FF") [] []),
    (chars "brace_bad", mkStyleItem [] (chars "#FF0000") [] []),
    (chars "calltip", mkStyleItem (chars "#404040") (chars "#FFFFB8") [] []),
    (chars "caret_line", mkStyleItem [] (chars "#D8F8FF") [] []),
    (chars "ctrl_char", mkStyleItem [] [] [] []),
    (chars "line_num", mkStyleItem [] (chars "#C0C0C0") (chars "%(secondary)s") (chars "%(size3)d")),
    (chars "array_style", mkStyleItem (chars "#EE8B02") [] (chars "%(secondary)s") []),
    (chars "btick_style", mkStyleItem (chars "#8959F6") [] [] (chars "%(size)d")),
    (chars "default_style", mkStyleItem (chars "#000000") (chars "#F6F6F6") (chars "%(primary)s") (chars "%(size)d")),
    (chars "char_style", mkStyleItem (chars "#FF3AFF") [] [] []),
    (chars "class_style", mkStyleItem (chars "#2E8B57") [] [] []),
    (chars "class2_style", mkStyleItem (chars "#2E8B57") [] [] []),
    (chars "comment_style", mkStyleItem (chars "#838383") [] [] []),
    (chars "decor_style", mkStyleItem (chars "#BA0EEA") [] (chars "%(secondary)s") []),
    (chars "directive_style", mkStyleItem (chars "#0000FF") [] (chars "%(secondary)s") []),
    (chars "dockey_style", mkStyleItem (chars "#0000FF") [] [] []),
    (chars "error_style", mkStyleItem (chars "#DD0101") [] (chars "%(secondary)s") []),
    (chars "foldmargin_style", mkStyleItem [] (chars "#D1D1D1") [] []),
    (chars "funct_style", mkStyleItem (chars "#008B8B") [] [] []),
    (chars "global_style", mkStyleItem (chars "#007F7F") [] (chars "%(secondary)s") []),
    (chars "guide_style", mkStyleItem (chars "#838383") [] [] []),
    (chars "here_style", mkStyleItem (chars "#CA61CA") [] (chars "%(secondary)s") []),
    (chars "ideol_style", mkStyleItem (chars "#E0C0E0") [] (chars "%(secondary)s") []),
    (chars "keyword_style", mkStyleItem (chars "#A52B2B") [] [] []),
    (chars "keyword2_style", mkStyleItem (chars "#2E8B57") [] [] []),
    (chars "keyword3_style", mkStyleItem (chars "#008B8B") [] [] []),
    (chars "keyword4_style", mkStyleItem (chars "#9D2424") [] [] []),
    (chars "marker_style", mkStyleItem (chars "#FFFFFF") (chars "#000000") [] []),
    (chars "number_style", mkStyleItem (chars "#DD0101") [] [] []),
    (chars "number2_style", mkStyleItem (chars "#DD0101") [] [] []),
    (chars "operator_style", mkStyleItem (chars "#000000") [] (chars "%(primary)s") []),
    (chars "pre_style", mkStyleItem (chars "#AB39F2") [] [] []),
    (chars "pre2_style", mkStyleItem (chars "#AB39F2") (chars "#FFFFFF") [] []),
    (chars "regex_style", mkStyleItem (chars "#008B8B") [] [] []),
    (chars "scalar_style", mkStyleItem (chars "#AB37F2") [] (chars "%(secondary)s") []),
    (chars "scalar2_style", mkStyleItem (chars "#AB37F2") [] (chars "%(secondary)s") []),
    (chars "select_style", nullStyleItem),
    (chars "string_style", mkStyleItem (chars "#FF3AFF") [] [] []),
    (chars "stringeol_style",
      { null := false, fore := chars "#000000", face := chars "%(secondary)s",
        back := chars "#EEC0EE", size := stringeolSize, exattr := [] }),
    (chars "unknown_style", mkStyleItem (chars "#FFFFFF") (chars "#DD0101") [] []),
    (chars "userkw_style", mkStyleItem [] [] [] []),
    (chars "whitespace_style", mkStyleItem (chars "#838383") [] [] []) ]

/-- The two tags reserved as "use system default" in `SetStyles`. -/
def isReservedTag (tag : Str) : Bool :=
  tag = chars "select_style" || tag = chars "whitespace_style"

/-- One iteration of the back-fill loop of `SetStyles` (source lines
899-904): a built-in tag absent from the dictionary is added, as a null item
for the two reserved tags and as the dictionary's own `default_style` entry
otherwise. -/
def fillStep (acc : List (Str × SDVal)) (p : Str × StyleItem) : List (Str × SDVal) :=
  if (alLookup p.1 acc).isSome then acc
  else
    alSet p.1
      (if isReservedTag p.1 then SDVal.item nullStyleItem
       else (alLookup (chars "default_style") acc).getD (SDVal.item emptyStyleItem))
      acc

/-- The back-fill loop of `SetStyles` over every built-in tag. -/
def fillDefaults (d : List (Str × SDVal)) : List (Str × SDVal) :=
  DEF_STYLE_DICT.foldl fillStep d

/-- `StyleMgr.SetStyles(name, style_dict, nomerge)`.  In `noMerge` mode the
dictionary is packed and stored with no type check; in merge mode every value
is first checked to be a `StyleItem` (failure returns `False` with no state
change), a `default_style` entry is borrowed from the built-in set if
missing, absent built-in tags are back-filled, and the packed result is
cached under `name`.  `self.style_set = name` happens before packing, so a
pack failure still leaves the current-set name changed. -/
def ensureDefault (d : List (Str × SDVal)) : List (Str × SDVal) :=
  match alLookup (chars "default_style") d with
  | some _ => d
  | none =>
    alSet (chars "default_style")
      (SDVal.item ((alLookup (chars "default_style") DEF_STYLE_DICT).getD emptyStyleItem)) d

def setStyles (st : MgrState) (name : Str) (d : List (Str × SDVal)) (nomerge : Bool) :
    MgrState × Except PyErr Bool :=
  if nomerge then
    let st1 := { st with styleSet := name }
    match packStyleSetRaw d with
    | .error e => (st1, .error e)
    | .ok packed => ({ st1 with styles := alSet name packed st1.styles }, .ok true)
  else
    if d.any (fun p => !p.2.isItem) then (st, .ok false)
    else
      let st1 := { st with styleSet := name }
      match packStyleSetRaw (fillDefaults (ensureDefault d)) with
      | .error e => (st1, .error e)
      | .ok packed => ({ st1 with styles := alSet name packed st1.styles }, .ok true)

/-- `StyleMgr.GetStyleSet()`: the cached set for the current sheet, else the
built-in default set. -/
def getStyleSet (st : MgrState) : List (Str × SDVal) :=
  match alLookup st.styleSet st.styles with
  | some s => s
  | none => alMapVals SDVal.item DEF_STYLE_DICT

/-- `StyleMgr.HasNamedStyle(name)`. -/
def hasNamedStyle (st : MgrState) (name : Str) : Bool :=
  (alLookup name (getStyleSet st)).isSome

/-- `StyleMgr.GetItemByName(name)`: reads the cached item; when its string
form contains `%`, substitutes the font dictionary and returns a *fresh*
item parsed from the substituted string; an unknown tag yields a fresh bare
`StyleItem()`.  The method performs no writes, which the model reflects by
returning the state unchanged alongside the result. -/
def getItemByName (st : MgrState) (name : Str) : MgrState × Except PyErr SDVal :=
  if hasNamedStyle st name then
    match alLookup st.styleSet st.styles with
    | none => (st, .error .keyError)
    | some cached =>
      match alLookup name cached with
      | none => (st, .error .keyError)
      | some v =>
        let ival := sdStr v
        if ival.contains '%' then
          match pyFormatMap ival st.fonts with
          | .error e => (st, .error e)
          | .ok val => (st, .ok (.item (setAttrFromStr emptyStyleItem val).1))
        else (st, .ok v)
  else (st, .ok (.item emptyStyleItem))

/-- `StyleMgr.GetStyleByName(name)`: the item's string form with the literal
`modifiers:` label removed; the empty string for unknown tags. -/
def getStyleByName (st : MgrState) (name : Str) : Except PyErr Str :=
  if hasNamedStyle st name then
    match (getItemByName st name).2 with
    | .error e => .error e
    | .ok v => .ok (removeModLabel (sdStr v))
  else .ok []

/-! ### Claim-support definitions -/

/-- The first block of the level-1 tree that does not split into exactly a
tag and a body. -/
def firstBadBlock (text : Str) : Option (List Str) :=
  (l1TreeOf text).find? (fun b => b.length != 2)

/-- Font dictionary of the spec's concrete example:
`{primary: "Courier", size: 10}`. -/
def c2Fonts : List (Str × PyVal) :=
  [(chars "primary", .str (chars "Courier")), (chars "size", .int 10)]

/-- Sheet text of the spec's concrete example. -/
def c2Sheet : Str :=
  chars "default_style \x7b fore: #000000; back: #FFFFFF; face: %(primary)s; size: %(size)d; \x7d\ncomment_style \x7b fore: #838383; \x7d"

/-- Expected result of non-strict parsing of `c2Sheet`. -/
def c2Parsed : List (Str × StyleItem) :=
  [(chars "default_style",
    { null := false, fore := chars "#000000", face := chars "%(primary)s",
      back := chars "#FFFFFF", size := chars "%(size)d", exattr := [] }),
   (chars "comment_style",
    { null := false, fore := chars "#838383", face := [], back := [], size := [],
      exattr := [] })]

/-- A manager that has not loaded any sheet, holding the example fonts. -/
def c2Init : MgrState := { styles := [], styleSet := [], fonts := c2Fonts }

/-- The manager state after merging the parsed example sheet under the sheet
identity `custom`. -/
def c2After : MgrState :=
  (setStyles c2Init (chars "custom") (alMapVals SDVal.item c2Parsed) false).1

/-- The four modifier keywords of the style-sheet grammar. -/
def canonicalMods : List Str :=
  [chars "eol", chars "bold", chars "italic", chars "underline"]

/-- A well-formed scalar attribute value: nonempty and free of the `,` and
`:` separators of the serialized form. -/
def goodScalarVal (v : Str) : Prop := v ≠ [] ∧ ',' ∉ v ∧ ':' ∉ v

/-- Well-formedness of an optional scalar attribute value. -/
def goodOpt : Option Str → Prop
  | none => True
  | some v => goodScalarVal v

/-- The attribute/value pair contributed by one optional scalar attribute. -/
def optPair (name : String) : Option Str → List (Str × Str)
  | none => []
  | some v => [(chars name, v)]

/-- The scalar attribute/value pairs of a canonical attribute string, in the
fixed order fore, back, face, size. -/
def scalarPairs (fore back face size : Option Str) : List (Str × Str) :=
  optPair "fore" fore ++ optPair "back" back ++ optPair "face" face ++ optPair "size" size

/-- The comma-separated atoms of a canonical attribute string: the scalar
`attr:value` pieces followed by the labelled modifier list. -/
def canonicalAtoms (fore back face size : Option Str) (mods : List Str) : List Str :=
  (scalarPairs fore back face size).map (fun p => p.1 ++ ':' :: p.2) ++
    (match mods with
     | [] => []
     | m :: ms => (chars "modifiers:" ++ m) :: ms)

/-- A canonical attribute string: attributes in the fixed order fore, back,
face, size, modifiers, comma-joined with no trailing comma. -/
def canonicalStr (fore back face size : Option Str) (mods : List Str) : Str :=
  joinComma (canonicalAtoms fore back face size mods)

/-- The `StyleItem` a canonical attribute string describes. -/
def canonicalItem (fore back face size : Option Str) (mods : List Str) : StyleItem :=
  { null := false, fore := fore.getD [], face := face.getD [],
    back := back.getD [], size := size.getD [], exattr := mods }

/-- An empty manager state used by concrete witnesses. -/
def zState : MgrState := { styles := [], styleSet := [], fonts := [] }

/-- Concrete item for the `SetStyles` merge witness. -/
def c4Item : StyleItem :=
  { null := false, fore := chars "#123456", face := [], back := [], size := [], exattr := [] }

/-- Concrete mapping for the `SetStyles` merge witness. -/
def c4Dict : List (Str × SDVal) := [(chars "keyword_style", SDVal.item c4Item)]

/-- Concrete default item for the `PackStyleSet` witness. -/
def c5Default : StyleItem :=
  { null := false, fore := chars "#000000", face := chars "Courier",
    back := chars "#FFFFFF", size := chars "10", exattr := [] }

/-- Concrete style set for the `PackStyleSet` witness. -/
def c5Set : List (Str × StyleItem) :=
  [(chars "default_style", c5Default),
   (chars "x", { null := false, fore := chars "#111111", face := [], back := [],
                 size := [], exattr := [] })]

/-- The packed form of the `x` entry of `c5Set`. -/
def c5Packed : StyleItem :=
  { null := false, fore := chars "#111111", face := chars "Courier",
    back := chars "#FFFFFF", size := chars "10", exattr := [] }

/-- Mapping holding a non-`StyleItem` value (a stray string). -/
def c8Bad : List (Str × SDVal) := [(chars "a", SDVal.pystr (chars "junk"))]

/-- Cached item containing a font placeholder, for the lookup witness. -/
def c9Item : StyleItem :=
  { null := false, fore := chars "#000000", face := chars "%(primary)s",
    back := [], size := [], exattr := [] }

/-- Cached style set for the lookup witness. -/
def c9Set : List (Str × SDVal) := [(chars "default_style", SDVal.item c9Item)]

/-- Manager state whose current sheet holds `c9Set`. -/
def c9State : MgrState :=
  { styles := [(chars "s", c9Set)], styleSet := chars "s",
    fonts := [(chars "primary", PyVal.str (chars "Courier"))] }

/-- Sheet whose first block has no valid declaration. -/
def c10Text : Str := chars "t \x7b nonsense \x7d u \x7b fore:#fff; \x7d"

/-- The exception the level-1 strict check raises for a malformed block:
an index error when the block head has no whitespace token, otherwise a
syntax error naming the head's first token. -/
def l1BadError (b : List Str) : PyErr :=
  match b.head? with
  | none => .indexError
  | some h0 =>
    match pySplitWS h0 with
    | [] => .indexError
    | w :: _ => .missingBrace w

/-! ### Helper lemmas: dictionaries -/

theorem alSet_cons_eq {α : Type} (k v k0 v0 t) (h : k0 = k) :
    alSet (α := α) k v ((k0, v0) :: t) = (k, v) :: t := by
  simp [alSet, h]

theorem alSet_cons_ne {α : Type} (k v k0 v0 t) (h : ¬ k0 = k) :
    alSet (α := α) k v ((k0, v0) :: t) = (k0, v0) :: alSet k v t := by
  simp [alSet, h]

theorem alLookup_cons_eq {α : Type} (k v0 t) (k0 : Str) (h : k0 = k) :
    alLookup (α := α) k ((k0, v0) :: t) = some v0 := by
  simp [alLookup, h]

theorem alLookup_cons_ne {α : Type} (k v0 t) (k0 : Str) (h : ¬ k0 = k) :
    alLookup (α := α) k ((k0, v0) :: t) = alLookup k t := by
  simp [alLookup, h]

theorem alLookup_alSet_self {α : Type} (k : Str) (v : α) (l : List (Str × α)) :
    alLookup k (alSet k v l) = some v := by
  induction l with
  | nil => simp [alSet, alLookup]
  | cons p t ih =>
    obtain ⟨k0, v0⟩ := p
    by_cases h0 : k0 = k
    · rw [alSet_cons_eq k v k0 v0 t h0, alLookup_cons_eq k v t k rfl]
    · rw [alSet_cons_ne k v k0 v0 t h0, alLookup_cons_ne _ _ _ _ h0, ih]

theorem alLookup_alSet_ne {α : Type} (k k' : Str) (v : α) (l : List (Str × α))
    (h : k' ≠ k) : alLookup k' (alSet k v l) = alLookup k' l := by
  induction l with
  | nil => simp [alSet, alLookup, Ne.symm h]
  | cons p t ih =>
    obtain ⟨k0, v0⟩ := p
    by_cases h0 : k0 = k
    · rw [alSet_cons_eq k v k0 v0 t h0, alLookup_cons_ne _ _ _ _ (Ne.symm h),
        alLookup_cons_ne _ _ _ _ (h0 ▸ Ne.symm h)]
    · by_cases h1 : k0 = k'
      · rw [alSet_cons_ne k v k0 v0 t h0, alLookup_cons_eq _ _ _ _ h1,
          alLookup_cons_eq _ _ _ _ h1]
      · rw [alSet_cons_ne k v k0 v0 t h0, alLookup_cons_ne _ _ _ _ h1,
          alLookup_cons_ne _ _ _ _ h1, ih]

theorem alLookup_mapVals {α β : Type} (f : α → β) (k : Str) (l : List (Str × α)) :
    alLookup k (alMapVals f l) = (alLookup k l).map f := by
  induction l with
  | nil => simp [alMapVals, alLookup]
  | cons p t ih =>
    obtain ⟨k0, v0⟩ := p
    by_cases h0 : k0 = k
    · simp [alMapVals, alLookup, h0]
    · simpa [alMapVals, alLookup, h0] using ih

theorem mem_keys_alSet {α : Type} (k a : Str) (v : α) (l : List (Str × α))
    (h : a ∈ (alSet k v l).map Prod.fst) : a = k ∨ a ∈ l.map Prod.fst := by
  induction l with
  | nil =>
    rw [show alSet (α := α) k v [] = [(k, v)] from rfl] at h
    simp only [List.map_cons, List.map_nil, List.mem_singleton] at h
    exact Or.inl h
  | cons p t ih =>
    obtain ⟨k0, v0⟩ := p
    by_cases h0 : k0 = k
    · rw [alSet_cons_eq k v k0 v0 t h0] at h
      simp only [List.map_cons, List.mem_cons] at h
      rcases h with h1 | h1
      · exact Or.inl h1
      · exact Or.inr (List.mem_cons_of_mem _ h1)
    · rw [alSet_cons_ne k v k0 v0 t h0] at h
      simp only [List.map_cons, List.mem_cons] at h
      rcases h with h1 | h1
      · exact Or.inr (by rw [h1]; exact List.mem_cons_self _ _)
      · rcases ih h1 with h2 | h2
        · exact Or.inl h2
        · exact Or.inr (List.mem_cons_of_mem _ h2)

theorem alSet_nodupKeys {α : Type} (k : Str) (v : α) (l : List (Str × α))
    (h : (l.map Prod.fst).Nodup) : ((alSet k v l).map Prod.fst).Nodup := by
  induction l with
  | nil =>
    rw [show alSet (α := α) k v [] = [(k, v)] from rfl]
    simp
  | cons p t ih =>
    obtain ⟨k0, v0⟩ := p
    simp only [List.map_cons, List.nodup_cons] at h
    by_cases h0 : k0 = k
    · rw [alSet_cons_eq k v k0 v0 t h0]
      simp only [List.map_cons, List.nodup_cons]
      exact ⟨h0 ▸ h.1, h.2⟩
    · rw [alSet_cons_ne k v k0 v0 t h0]
      simp only [List.map_cons, List.nodup_cons]
      refine ⟨fun hmem => ?_, ih h.2⟩
      rcases mem_keys_alSet k k0 v t hmem with h1 | h1
      · exact h0 h1
      · exact h.1 h1

/-! ### Helper lemmas: registry -/

theorem getItemByName_fst (st : MgrState) (name : Str) :
    (getItemByName st name).1 = st := by
  unfold getItemByName
  split
  · split
    · rfl
    · split
      · rfl
      · dsimp only
        split
        · split <;> rfl
        · rfl
  · rfl

/-! ### Claim theorems -/

/-- C1: the spec claims tolerant-mode parsing never raises, but on the input
consisting of a single closing brace the log-message expression
`style[0].split()[0]` (source line 706) indexes into an empty token list and
raises `IndexError` even with `strict=False`. -/
theorem c1_tolerant_mode_crash :
    parseStyleData (chars "\x7d") false = .error .indexError := by decide

/-- C2: parsing the two-block example sheet, merging it with `SetStyles`,
and looking up `comment_style` with fonts `{primary: Courier, size: 10}`
yields exactly `fore:#838383,back:#FFFFFF,face:Courier,size:10` — back, face
and size inherited from `default_style` and placeholders resolved at lookup
time. -/
theorem c2_concrete_lookup :
    parseStyleData c2Sheet false = .ok c2Parsed ∧
    (setStyles c2Init (chars "custom") (alMapVals SDVal.item c2Parsed) false).2 = .ok true ∧
    getStyleByName c2After (chars "comment_style")
      = .ok (chars "fore:#838383,back:#FFFFFF,face:Courier,size:10") :=
  ⟨by decide, by decide, by decide⟩

/-- C5: after `PackStyleSet` on a set containing a `default_style` item `d`,
every non-null item has each scalar attribute (face, fore, back, size) empty
only if `d`'s corresponding attribute is empty as well. -/
theorem c5_pack_inheritance (s : List (Str × StyleItem)) (d : StyleItem)
    (hd : alLookup (chars "default_style") s = some d) :
    ∀ tag it, alLookup tag (packStyleSet s) = some it → it.null = false →
      (it.face = [] → d.face = []) ∧ (it.fore = [] → d.fore = []) ∧
      (it.back = [] → d.back = []) ∧ (it.size = [] → d.size = []) := by
  intro tag it hit hnull
  unfold packStyleSet at hit
  rw [hd, alLookup_mapVals] at hit
  cases h0 : alLookup tag s with
  | none => rw [h0] at hit; exact absurd hit (by simp)
  | some it0 =>
    rw [h0] at hit
    simp only [Option.map_some'] at hit
    injection hit with hit
    cases hn0 : it0.null with
    | true =>
      simp only [hn0, if_true] at hit
      rw [← hit] at hnull
      rw [hn0] at hnull
      cases hnull
    | false =>
      simp only [hn0, Bool.false_eq_true, if_false] at hit
      rw [← hit]
      refine ⟨?_, ?_, ?_, ?_⟩ <;> simp only [packFill] <;> intro hf
      · split_ifs at hf with h
        · exact hf
        · exact absurd hf h
      · split_ifs at hf with h
        · exact hf
        · exact absurd hf h
      · split_ifs at hf with h
        · exact hf
        · exact absurd hf h
      · split_ifs at hf with h
        · exact hf
        · exact absurd hf h

/-- Witness for C5 at a concrete two-entry style set. -/
theorem c5_pack_inheritance_witness :
    alLookup (chars "default_style") c5Set = some c5Default ∧
    alLookup (chars "x") (packStyleSet c5Set) = some c5Packed ∧
    c5Packed.null = false ∧
    ((c5Packed.face = [] → c5Default.face = []) ∧ (c5Packed.fore = [] → c5Default.fore = []) ∧
     (c5Packed.back = [] → c5Default.back = []) ∧ (c5Packed.size = [] → c5Default.size = [])) :=
  ⟨by decide, by decide, by decide,
   c5_pack_inheritance c5Set c5Default (by decide) (chars "x") c5Packed (by decide) (by decide)⟩

/-- C8 counterexample: the claim requires `SetStyles` to fail and leave the
state untouched for a non-`StyleItem` value under *every* `noMerge` flag, but
with `noMerge=True` the type check is skipped: the call returns `True` and
stores the bad mapping in the cache. -/
theorem c8_counterexample_nomerge_skips_check :
    (setStyles zState (chars "n") c8Bad true).2 = .ok true ∧
    alLookup (chars "n") (setStyles zState (chars "n") c8Bad true).1.styles = some c8Bad :=
  ⟨by decide, by decide⟩

/-- C8 (amended): in merge mode (`noMerge` false) a mapping containing any
non-`StyleItem` value makes `SetStyles` return `False` and leaves the cache,
the current-set name and the whole manager state unchanged; the `noMerge`
path performs no such check. -/
theorem c8_merge_type_check (st : MgrState) (name : Str) (d : List (Str × SDVal))
    (h : d.any (fun p => !p.2.isItem) = true) :
    setStyles st name d false = (st, .ok false) := by
  unfold setStyles
  simp [h]

/-- Witness for C8 (amended) at the concrete bad mapping. -/
theorem c8_merge_type_check_witness :
    c8Bad.any (fun p => !p.2.isItem) = true ∧
    setStyles zState (chars "n") c8Bad false = (zState, .ok false) :=
  ⟨by decide, c8_merge_type_check zState (chars "n") c8Bad (by decide)⟩

/-- C9: `GetItemByName` never changes the manager state (in particular the
cached style set); an unknown tag returns a fresh empty non-null item that is
not inserted into the cache; and when the cached item's serialization
contains a `%` placeholder the result is a freshly parsed item built from the
font-substituted string, leaving the cached entry untouched. -/
theorem c9_get_item_frame (st : MgrState) (name : Str) :
    (getItemByName st name).1 = st ∧
    emptyStyleItem.null = false ∧
    (hasNamedStyle st name = false → (getItemByName st name).2 = .ok (.item emptyStyleItem)) ∧
    (∀ cached v, alLookup st.styleSet st.styles = some cached →
      alLookup name cached = some v → (sdStr v).contains '%' = true →
      (getItemByName st name).2
        = (pyFormatMap (sdStr v) st.fonts).map
            (fun s => SDVal.item (setAttrFromStr emptyStyleItem s).1)) := by
  refine ⟨getItemByName_fst st name, rfl, ?_, ?_⟩
  · intro h
    simp [getItemByName, h]
  · intro cached v h1 h2 h3
    have hhas : hasNamedStyle st name = true := by
      simp [hasNamedStyle, getStyleSet, h1, h2]
    have h3m : '%' ∈ sdStr v := by simpa using h3
    cases hf : pyFormatMap (sdStr v) st.fonts with
    | error e => simp [getItemByName, hhas, h1, h2, h3m, hf, Except.map]
    | ok val => simp [getItemByName, hhas, h1, h2, h3m, hf, Except.map]

/-- Witness for C9 at a concrete state with a placeholder item. -/
theorem c9_get_item_frame_witness :
    (getItemByName c9State (chars "default_style")).1 = c9State ∧
    (alLookup c9State.styleSet c9State.styles = some c9Set) ∧
    (alLookup (chars "default_style") c9Set = some (SDVal.item c9Item)) ∧
    ((sdStr (SDVal.item c9Item)).contains '%' = true) ∧
    (getItemByName c9State (chars "default_style")).2
      = (pyFormatMap (sdStr (SDVal.item c9Item)) c9State.fonts).map
          (fun s => SDVal.item (setAttrFromStr emptyStyleItem s).1) :=
  ⟨(c9_get_item_frame c9State (chars "default_style")).1, by decide, by decide, by decide,
   (c9_get_item_frame c9State (chars "default_style")).2.2.2 c9Set (SDVal.item c9Item)
     (by decide) (by decide) (by decide)⟩

/-! ### Helper lemmas: strict level-1 check -/

theorem l1Check_strict_bad (fuel i : Nat) (tree : List (List Str))
    (hfuel : tree.length ≤ fuel + i) (b : List Str)
    (hb : (tree.drop i).find? (fun s => s.length != 2) = some b) :
    l1Check true fuel i tree = .error (l1BadError b) := by
  induction fuel generalizing i with
  | zero =>
    have hle : tree.length ≤ i := by omega
    rw [List.drop_eq_nil_of_le hle] at hb
    simp [List.find?] at hb
  | succ fuel ih =>
    by_cases h : i < tree.length
    · have hdrop : tree.drop i = tree[i] :: tree.drop (i + 1) :=
        List.drop_eq_getElem_cons h
      rw [hdrop] at hb
      unfold l1Check
      rw [dif_pos h]
      by_cases h2 : tree[i].length = 2
      · rw [List.find?_cons_of_neg _ (by simp [h2])] at hb
        rw [if_neg (by omega)]
        exact ih (i + 1) (by omega) hb
      · rw [List.find?_cons_of_pos _ (by simp [h2])] at hb
        injection hb with hb
        subst hb
        rw [if_pos (by omega)]
        unfold l1BadError
        cases hh : tree[i].head? with
        | none => rfl
        | some h0 =>
          cases hw : pySplitWS h0 with
          | nil => simp [hw]
          | cons w ws => simp [hw]
    · have hle : tree.length ≤ i := by omega
      rw [List.drop_eq_nil_of_le hle] at hb
      simp [List.find?] at hb

/-- C3 (amended): in strict mode, a block whose split on the opening brace
does not yield exactly two parts aborts parsing: with a syntax error naming
the first token of the block's head when one exists, and with an index error
when the head is blank (the log-message formatting indexes an empty token
list).  In particular the spec's concrete bad input raises a syntax error
identifying `bad_tag`. -/
theorem c3_strict_abort :
    (∀ text b h0 w ws, firstBadBlock text = some b → b.head? = some h0 →
      pySplitWS h0 = w :: ws → parseStyleData text true = .error (.missingBrace w)) ∧
    (∀ text b h0, firstBadBlock text = some b → b.head? = some h0 →
      pySplitWS h0 = [] → parseStyleData text true = .error .indexError) ∧
    parseStyleData (chars "bad_tag missing_brace fore:#fff;") true
      = .error (.missingBrace (chars "bad_tag")) := by
  have key : ∀ text b, firstBadBlock text = some b →
      parseStyleData text true = .error (l1BadError b) := by
    intro text b hfind
    have hl1 : l1Check true ((l1TreeOf text).length + 1) 0 (l1TreeOf text)
        = .error (l1BadError b) := by
      refine l1Check_strict_bad _ 0 _ (by omega) b ?_
      simpa [firstBadBlock] using hfind
    simp only [parseStyleData, preDict, hl1]
    rfl
  refine ⟨?_, ?_, by decide⟩
  · intro text b h0 w ws hfind hh hw
    have := key text b hfind
    rwa [show l1BadError b = .missingBrace w by simp [l1BadError, hh, hw]] at this
  · intro text b h0 hfind hh hw
    have := key text b hfind
    rwa [show l1BadError b = .indexError by simp [l1BadError, hh, hw]] at this

/-- C3 counterexample: for the input consisting of a single closing brace the
malformed block's head is blank, so strict parsing aborts with `IndexError`
rather than with a syntax error identifying a tag. -/
theorem c3_counterexample_blank_head :
    parseStyleData (chars "\x7d") true = .error .indexError := by decide

/-- Witness for C3 (amended) at the concrete brace-free input `abc`. -/
theorem c3_strict_abort_witness :
    firstBadBlock (chars "abc") = some [chars "abc"] ∧
    parseStyleData (chars "abc") true = .error (.missingBrace (chars "abc")) :=
  ⟨by decide,
   c3_strict_abort.1 (chars "abc") [chars "abc"] (chars "abc") (chars "abc") []
     (by decide) (by decide) (by decide)⟩

/-! ### Helper lemmas: trimming of leafless branches -/


theorem exceptBind_ok {ε α β : Type} (a : α) (f : α → Except ε β) :
    (Except.ok a >>= f) = f a := rfl

theorem exceptBind_error {ε α β : Type} (e : ε) (f : α → Except ε β) :
    ((Except.error e : Except ε α) >>= f) = Except.error e := rfl

theorem alLookup_none_of_not_mem_keys {α : Type} (tag : Str) (l : List (Str × α))
    (h : tag ∉ l.map Prod.fst) : alLookup tag l = none := by
  induction l with
  | nil => rfl
  | cons p t ih =>
    obtain ⟨k, v⟩ := p
    simp only [List.map_cons, List.mem_cons, not_or] at h
    rw [alLookup_cons_ne _ _ _ _ (fun hk => h.1 hk.symm)]
    exact ih h.2

theorem alLookup_filter_none {α : Type} (tag : Str) (q : Str × α → Bool)
    (l : List (Str × α)) (h : alLookup tag l = none) :
    alLookup tag (l.filter q) = none := by
  induction l with
  | nil => rfl
  | cons p t ih =>
    obtain ⟨k, v⟩ := p
    by_cases hk : k = tag
    · rw [alLookup_cons_eq _ _ _ _ hk] at h
      cases h
    · rw [alLookup_cons_ne _ _ _ _ hk] at h
      rw [List.filter_cons]
      split
      · rw [alLookup_cons_ne _ _ _ _ hk]
        exact ih h
      · exact ih h

theorem alLookup_trimEmpty_none (d : List (Str × List (List Str))) (tag : Str)
    (hnd : (d.map Prod.fst).Nodup) (h : alLookup tag d = some []) :
    alLookup tag (trimEmpty d) = none := by
  induction d with
  | nil => cases h
  | cons p t ih =>
    obtain ⟨k, v⟩ := p
    simp only [List.map_cons, List.nodup_cons] at hnd
    by_cases hk : k = tag
    · rw [alLookup_cons_eq _ _ _ _ hk] at h
      injection h with h
      subst h
      have ht : alLookup tag t = none :=
        alLookup_none_of_not_mem_keys tag t (hk ▸ hnd.1)
      simp only [trimEmpty, List.filter_cons]
      rw [if_neg (by simp)]
      exact alLookup_filter_none tag _ t ht
    · rw [alLookup_cons_ne _ _ _ _ hk] at h
      simp only [trimEmpty, List.filter_cons]
      split
      · rw [alLookup_cons_ne _ _ _ _ hk]
        exact ih hnd.2 h
      · exact ih hnd.2 h

theorem buildDict_nodupKeys (strict : Bool) (branches : List (Str × List (List Str)))
    (acc d : List (Str × List (List Str)))
    (hacc : (acc.map Prod.fst).Nodup) (h : buildDict strict acc branches = .ok d) :
    (d.map Prod.fst).Nodup := by
  induction branches generalizing acc with
  | nil =>
    unfold buildDict at h
    injection h with h
    exact h ▸ hacc
  | cons p rest ih =>
    obtain ⟨tagRaw, decls⟩ := p
    unfold buildDict at h
    dsimp only at h
    cases hf : filterDecls strict (tagRaw.filter (· ≠ ' ')) decls with
    | error e =>
      rw [hf, exceptBind_error] at h
      cases h
    | ok value =>
      rw [hf, exceptBind_ok] at h
      exact ih _ (alSet_nodupKeys _ _ _ hacc) h

theorem validateAll_lookup_none (strict : Bool) (l : List (Str × List (List Str)))
    (l3 : List (Str × DVal)) (tag : Str)
    (h : validateAll strict l = .ok l3) (hn : alLookup tag l = none) :
    alLookup tag l3 = none := by
  induction l generalizing l3 with
  | nil =>
    unfold validateAll at h
    injection h with h
    subst h
    rfl
  | cons p rest ih =>
    obtain ⟨k, decls⟩ := p
    unfold validateAll at h
    cases he : validateEntry strict k decls with
    | error e =>
      rw [he, exceptBind_error] at h
      cases h
    | ok v =>
      rw [he, exceptBind_ok] at h
      cases hr : validateAll strict rest with
      | error e =>
        rw [hr, exceptBind_error] at h
        cases h
      | ok r =>
        rw [hr, exceptBind_ok] at h
        injection h with h
        subst h
        by_cases hk : k = tag
        · rw [alLookup_cons_eq _ _ _ _ hk] at hn
          cases hn
        · rw [alLookup_cons_ne _ _ _ _ hk] at hn
          rw [alLookup_cons_ne _ _ _ _ hk]
          exact ih _ hr hn

/-- C10: in non-strict parsing, a tag whose filtered declaration list is
empty after the level-2/3 pass (empty body, or every declaration malformed or
naming an unknown attribute) does not appear as a key of the returned
mapping: the trim pass removes it before item construction. -/
theorem c10_leafless_removed (text : Str) (d : List (Str × List (List Str)))
    (m : List (Str × StyleItem)) (tag : Str)
    (hpre : preDict text false = .ok d)
    (hparse : parseStyleData text false = .ok m)
    (hempty : alLookup tag d = some []) :
    alLookup tag m = none := by
  have hnd : (d.map Prod.fst).Nodup := by
    unfold preDict at hpre
    dsimp only at hpre
    cases h1 : l1Check false ((l1TreeOf text).length + 1) 0 (l1TreeOf text) with
    | error e =>
      rw [h1, exceptBind_error] at hpre
      cases hpre
    | ok tr =>
      rw [h1, exceptBind_ok] at hpre
      cases h2 : l2Branches tr with
      | error e =>
        rw [h2, exceptBind_error] at hpre
        cases hpre
      | ok br =>
        rw [h2, exceptBind_ok] at hpre
        exact buildDict_nodupKeys false br [] d (by simp) hpre
  unfold parseStyleData at hparse
  rw [hpre, exceptBind_ok] at hparse
  cases h3 : validateAll false (trimEmpty d) with
  | error e =>
    rw [h3, exceptBind_error] at hparse
    cases hparse
  | ok d3 =>
    rw [h3, exceptBind_ok] at hparse
    injection hparse with hparse
    subst hparse
    have htrim := alLookup_trimEmpty_none d tag hnd hempty
    have hd3 := validateAll_lookup_none false (trimEmpty d) d3 tag h3 htrim
    unfold toItems
    rw [alLookup_mapVals, hd3]
    rfl

/-- Witness for C10: the block `t` contributes no valid declaration, so `t`
is a key of the level-2/3 dictionary with an empty list but absent from the
parse result. -/
theorem c10_leafless_removed_witness :
    preDict c10Text false
      = .ok [(chars "t", []), (chars "u", [[chars "fore", chars "#fff"]])] ∧
    parseStyleData c10Text false
      = .ok [(chars "u",
          { null := false, fore := chars "#fff", face := [], back := [], size := [],
            exattr := [] })] ∧
    alLookup (chars "t") [(chars "t", ([] : List (List Str))),
      (chars "u", [[chars "fore", chars "#fff"]])] = some [] ∧
    alLookup (chars "t")
      [(chars "u",
        ({ null := false, fore := chars "#fff", face := [], back := [], size := [],
           exattr := [] } : StyleItem))] = none :=
  ⟨by decide, by decide, by decide,
   c10_leafless_removed c10Text
     [(chars "t", []), (chars "u", [[chars "fore", chars "#fff"]])]
     [(chars "u",
       { null := false, fore := chars "#fff", face := [], back := [], size := [],
         exattr := [] })]
     (chars "t") (by decide) (by decide) (by decide)⟩

/-! ### Helper lemmas: hex validation -/

theorem pySplitWSAux_no_space (v : Str) :
    ∀ acc, (∀ c ∈ v, pyIsSpace c = false) →
      pySplitWSAux v acc = if acc.reverse ++ v = [] then [] else [acc.reverse ++ v] := by
  induction v with
  | nil =>
    intro acc _
    by_cases ha : acc = []
    · simp [pySplitWSAux, ha]
    · simp [pySplitWSAux, ha, List.reverse_eq_nil_iff]
  | cons c rest ih =>
    intro acc h
    have hc : pyIsSpace c = false := h c (List.mem_cons_self _ _)
    have hrest : ∀ x ∈ rest, pyIsSpace x = false :=
      fun x hx => h x (List.mem_cons_of_mem _ hx)
    simp only [pySplitWSAux, hc, Bool.false_eq_true, if_false]
    rw [ih (c :: acc) hrest]
    simp

theorem pySplitWS_no_space (v : Str) (hv : v ≠ [])
    (h : ∀ c ∈ v, pyIsSpace c = false) : pySplitWS v = [v] := by
  unfold pySplitWS
  rw [pySplitWSAux_no_space v [] h]
  simp [hv]

theorem hexMatch_iff (v : Str) : hexMatch v = true ↔
    ∃ c1 c2 c3 rest, v = '#' :: c1 :: c2 :: c3 :: rest ∧
      isHexC c1 = true ∧ isHexC c2 = true ∧ isHexC c3 = true := by
  constructor
  · intro h
    unfold hexMatch at h
    split at h
    · next c0 c1 c2 c3 rest =>
      simp only [Bool.and_eq_true, beq_iff_eq] at h
      obtain ⟨⟨⟨h0, h1⟩, h2⟩, h3⟩ := h
      subst h0
      exact ⟨c1, c2, c3, rest, rfl, h1, h2, h3⟩
    · cases h
  · rintro ⟨c1, c2, c3, rest, rfl, h1, h2, h3⟩
    simp [hexMatch, h1, h2, h3]

theorem validateDecl_forehex (a v : Str) (ha : a = chars "fore" ∨ a = chars "back")
    (hv : v ≠ []) (hns : ∀ c ∈ v, pyIsSpace c = false) :
    validateDecl a v = if hexMatch v then some v else none := by
  have hsplit : pySplitWS v = [v] := pySplitWS_no_space v hv hns
  have hsub : pySubstr a (chars "fore back") = true := by
    rcases ha with h | h <;> subst h <;> decide
  unfold validateDecl
  rw [hsplit]
  simp [hv, hsub, Bool.and_false]

/-- C7 (amended): the parser accepts a (whitespace-free) value for `fore` or
`back` exactly when it *begins* with `#` followed by at least three hex
digits — `re.match` is a prefix match, so trailing characters (including a
seventh hex digit) are not checked; in particular the too-short `#12` is
rejected, its declaration dropped, and the block's item is left with `fore`
unset. -/
theorem c7_hex_prefix_accept :
    (∀ a v, (a = chars "fore" ∨ a = chars "back") → v ≠ [] →
      (∀ c ∈ v, pyIsSpace c = false) →
      ((validateDecl a v).isSome = true ↔
        ∃ c1 c2 c3 rest, v = '#' :: c1 :: c2 :: c3 :: rest ∧
          isHexC c1 = true ∧ isHexC c2 = true ∧ isHexC c3 = true)) ∧
    parseStyleData (chars "t \x7b fore: #12; \x7d") false
      = .ok [(chars "t", emptyStyleItem)] := by
  refine ⟨?_, by decide⟩
  intro a v ha hv hns
  rw [validateDecl_forehex a v ha hv hns, ← hexMatch_iff]
  cases h : hexMatch v <;> simp [h]

/-- C7 counterexample: `#1234567` (seven hex digits) is not `#` followed by
3-6 hex digits, yet the parser accepts it for `fore`, contradicting the
claimed "if and only if". -/
theorem c7_counterexample_seven_digits :
    parseStyleData (chars "t \x7b fore: #1234567; \x7d") false
      = .ok [(chars "t",
          { null := false, fore := chars "#1234567", face := [], back := [], size := [],
            exattr := [] })] := by decide

/-- Witness for C7 (amended) at the accepted value `#a1b`. -/
theorem c7_hex_prefix_accept_witness :
    (validateDecl (chars "fore") (chars "#a1b")).isSome = true ↔
      ∃ c1 c2 c3 rest, chars "#a1b" = '#' :: c1 :: c2 :: c3 :: rest ∧
        isHexC c1 = true ∧ isHexC c2 = true ∧ isHexC c3 = true :=
  c7_hex_prefix_accept.1 (chars "fore") (chars "#a1b") (Or.inl rfl) (by decide) (by decide)

/-! ### Helper lemmas: SetStyles merge -/

theorem alLookup_mem {α : Type} (k : Str) (v : α) (l : List (Str × α))
    (h : alLookup k l = some v) : (k, v) ∈ l := by
  induction l with
  | nil => cases h
  | cons p t ih =>
    obtain ⟨k0, v0⟩ := p
    by_cases h0 : k0 = k
    · rw [alLookup_cons_eq _ _ _ _ h0] at h
      injection h with h
      subst h0
      subst h
      exact List.mem_cons_self _ _
    · rw [alLookup_cons_ne _ _ _ _ h0] at h
      exact List.mem_cons_of_mem _ (ih h)

theorem alSet_all {α : Type} (p : Str × α → Bool) (k : Str) (v : α)
    (l : List (Str × α)) (hl : l.all p = true) (hv : p (k, v) = true) :
    (alSet k v l).all p = true := by
  induction l with
  | nil => simpa [alSet] using hv
  | cons q t ih =>
    obtain ⟨k0, v0⟩ := q
    simp only [List.all_cons, Bool.and_eq_true] at hl
    by_cases h0 : k0 = k
    · rw [alSet_cons_eq _ _ _ _ _ h0]
      simp [hv, hl.2]
    · rw [alSet_cons_ne _ _ _ _ _ h0]
      simp [hl.1, ih hl.2]

theorem fillStep_all_items (acc : List (Str × SDVal)) (p : Str × StyleItem)
    (h : acc.all (fun q => q.2.isItem) = true) :
    (fillStep acc p).all (fun q => q.2.isItem) = true := by
  unfold fillStep
  split
  · exact h
  · apply alSet_all _ _ _ _ h
    split
    · rfl
    · cases hd : alLookup (chars "default_style") acc with
      | none => rfl
      | some v =>
        have hmem := alLookup_mem _ _ _ hd
        have := List.all_eq_true.mp h _ hmem
        simpa [Option.getD] using this

theorem fillFold_all_items (defs : List (Str × StyleItem)) (acc : List (Str × SDVal))
    (h : acc.all (fun q => q.2.isItem) = true) :
    (defs.foldl fillStep acc).all (fun q => q.2.isItem) = true := by
  induction defs generalizing acc with
  | nil => rw [List.foldl_nil]; exact h
  | cons p defs ih => rw [List.foldl_cons]; exact ih _ (fillStep_all_items acc p h)

theorem alLookup_fillStep_preserved (acc : List (Str × SDVal)) (p : Str × StyleItem)
    (k : Str) (v : SDVal) (h : alLookup k acc = some v) :
    alLookup k (fillStep acc p) = some v := by
  unfold fillStep
  split
  · exact h
  · next hnone =>
    have hk : p.1 ≠ k := by
      intro he
      rw [he, h] at hnone
      simp at hnone
    rw [alLookup_alSet_ne _ _ _ _ (Ne.symm hk)]
    exact h

theorem alLookup_fillFold_preserved (defs : List (Str × StyleItem))
    (acc : List (Str × SDVal)) (k : Str) (v : SDVal) (h : alLookup k acc = some v) :
    alLookup k (defs.foldl fillStep acc) = some v := by
  induction defs generalizing acc with
  | nil => rw [List.foldl_nil]; exact h
  | cons p defs ih => rw [List.foldl_cons]; exact ih _ (alLookup_fillStep_preserved acc p k v h)

theorem alLookup_fillFold_covers (defs : List (Str × StyleItem))
    (acc : List (Str × SDVal)) (k : Str) (x : StyleItem)
    (h : (k, x) ∈ defs ∨ (alLookup k acc).isSome = true) :
    (alLookup k (defs.foldl fillStep acc)).isSome = true := by
  induction defs generalizing acc with
  | nil =>
    rcases h with h | h
    · cases h
    · rw [List.foldl_nil]; exact h
  | cons p defs ih =>
    rw [List.foldl_cons]
    rcases h with h | h
    · rcases List.mem_cons.mp h with h1 | h1
      · refine ih (fillStep acc p) ?_
        right
        subst h1
        unfold fillStep
        split
        · next hs => exact hs
        · simp [alLookup_alSet_self]
      · exact ih _ (Or.inl h1)
    · refine ih (fillStep acc p) ?_
      right
      cases hv : alLookup k acc with
      | none => rw [hv] at h; cases h
      | some v => simp [alLookup_fillStep_preserved acc p k v hv]

theorem alLookup_fillFold_absent (defs : List (Str × StyleItem))
    (acc : List (Str × SDVal)) (k : Str) (x : StyleItem) (v0 : SDVal)
    (hdef : alLookup (chars "default_style") acc = some v0)
    (hnone : alLookup k acc = none) (hmem : (k, x) ∈ defs) :
    alLookup k (defs.foldl fillStep acc)
      = some (if isReservedTag k then SDVal.item nullStyleItem else v0) := by
  induction defs generalizing acc with
  | nil => cases hmem
  | cons p defs ih =>
    rw [List.foldl_cons]
    by_cases hpk : p.1 = k
    · have hstep : alLookup k (fillStep acc p)
          = some (if isReservedTag k then SDVal.item nullStyleItem else v0) := by
        unfold fillStep
        rw [hpk]
        rw [if_neg (by simp [hnone])]
        rw [hdef]
        rw [alLookup_alSet_self]
        simp [Option.getD]
      exact alLookup_fillFold_preserved defs _ k _ hstep
    · have hk0 : alLookup k (fillStep acc p) = none := by
        unfold fillStep
        split
        · exact hnone
        · rw [alLookup_alSet_ne _ _ _ _ (fun he => hpk he.symm)]
          exact hnone
      have hd0 : alLookup (chars "default_style") (fillStep acc p) = some v0 :=
        alLookup_fillStep_preserved acc p _ v0 hdef
      have hmem' : (k, x) ∈ defs := by
        rcases List.mem_cons.mp hmem with h1 | h1
        · exact absurd (congrArg Prod.fst h1).symm hpk
        · exact h1
      exact ih _ hd0 hk0 hmem'

theorem alLookup_pack (s : List (Str × StyleItem)) (dd : StyleItem) (tag : Str)
    (hd : alLookup (chars "default_style") s = some dd) :
    alLookup tag (packStyleSet s)
      = (alLookup tag s).map (fun it => if it.null then it else packFill it dd) := by
  unfold packStyleSet
  rw [hd, alLookup_mapVals]


theorem packRaw_all_items (d2 : List (Str × SDVal)) (v0 : SDVal)
    (hdef : alLookup (chars "default_style") d2 = some v0)
    (hall : d2.all (fun p => p.2.isItem) = true) :
    packStyleSetRaw d2 = .ok (alMapVals SDVal.item (packStyleSet (alMapVals sdToItem d2))) := by
  unfold packStyleSetRaw
  rw [hdef, if_pos hall]

theorem setStyles_merge_eq (st : MgrState) (nm : Str) (d : List (Str × SDVal))
    (hany : d.any (fun p => !p.2.isItem) = false)
    (v0 : SDVal)
    (hdef : alLookup (chars "default_style") (fillDefaults (ensureDefault d)) = some v0)
    (hall : (fillDefaults (ensureDefault d)).all (fun p => p.2.isItem) = true) :
    setStyles st nm d false
      = ({ st with
            styleSet := nm
            styles := alSet nm
              (alMapVals SDVal.item
                (packStyleSet (alMapVals sdToItem (fillDefaults (ensureDefault d)))))
              st.styles },
         .ok true) := by
  have hpack := packRaw_all_items (fillDefaults (ensureDefault d)) v0 hdef hall
  unfold setStyles
  rw [hany, hpack]
  rfl

theorem fillDefaults_all_items (d1 : List (Str × SDVal))
    (h : d1.all (fun q => q.2.isItem) = true) :
    (fillDefaults d1).all (fun q => q.2.isItem) = true :=
  fillFold_all_items DEF_STYLE_DICT d1 h

theorem alLookup_fillDefaults_preserved (d1 : List (Str × SDVal)) (k : Str) (v : SDVal)
    (h : alLookup k d1 = some v) : alLookup k (fillDefaults d1) = some v :=
  alLookup_fillFold_preserved DEF_STYLE_DICT d1 k v h

theorem alLookup_fillDefaults_covers (d1 : List (Str × SDVal)) (k : Str) (x : StyleItem)
    (h : (k, x) ∈ DEF_STYLE_DICT) : (alLookup k (fillDefaults d1)).isSome = true :=
  alLookup_fillFold_covers DEF_STYLE_DICT d1 k x (Or.inl h)

theorem alLookup_fillDefaults_absent (d1 : List (Str × SDVal)) (k : Str) (x : StyleItem)
    (v0 : SDVal) (hdef : alLookup (chars "default_style") d1 = some v0)
    (hnone : alLookup k d1 = none) (hmem : (k, x) ∈ DEF_STYLE_DICT) :
    alLookup k (fillDefaults d1)
      = some (if isReservedTag k then SDVal.item nullStyleItem else v0) :=
  alLookup_fillFold_absent DEF_STYLE_DICT d1 k x v0 hdef hnone hmem

/-- C4: for every name and every all-`StyleItem` mapping given to `SetStyles`
in merge mode, the call succeeds and the stored set's key set is a superset
of the built-in default set's: every built-in tag is present, and a built-in
tag absent from the supplied mapping is bound to a null item for the two
reserved tags `select_style` / `whitespace_style` and to (a copy of) the
set's own `default_style` entry otherwise. -/
theorem c4_merge_superset (st : MgrState) (nm : Str) (d : List (Str × SDVal))
    (hall : d.all (fun p => p.2.isItem) = true) :
    ∃ stored,
      (setStyles st nm d false).2 = .ok true ∧
      alLookup nm (setStyles st nm d false).1.styles = some stored ∧
      ∀ tag, (alLookup tag DEF_STYLE_DICT).isSome = true →
        (alLookup tag stored).isSome = true ∧
        (alLookup tag d = none →
          (isReservedTag tag = true → alLookup tag stored = some (SDVal.item nullStyleItem)) ∧
          (isReservedTag tag = false →
            alLookup tag stored = alLookup (chars "default_style") stored)) := by
  have hany : d.any (fun p => !p.2.isItem) = false := by
    cases he : d.any (fun p => !p.2.isItem)
    · rfl
    · exfalso
      obtain ⟨x, hx, hbad⟩ := List.any_eq_true.mp he
      have hi := List.all_eq_true.mp hall x hx
      rw [hi] at hbad
      cases hbad
  have hd1all : (ensureDefault d).all (fun p => p.2.isItem) = true := by
    unfold ensureDefault
    cases hd : alLookup (chars "default_style") d with
    | some dv => exact hall
    | none => exact alSet_all _ _ _ _ hall rfl
  obtain ⟨w0, hd1def⟩ :
      ∃ w0, alLookup (chars "default_style") (ensureDefault d) = some w0 := by
    unfold ensureDefault
    cases hd : alLookup (chars "default_style") d with
    | some dv => exact ⟨dv, hd⟩
    | none => exact ⟨_, alLookup_alSet_self _ _ _⟩
  have hd2all := fillDefaults_all_items _ hd1all
  have hd2def := alLookup_fillDefaults_preserved _ _ _ hd1def
  have heq := setStyles_merge_eq st nm d hany w0 hd2def hd2all
  have hpackdef : alLookup (chars "default_style")
      (alMapVals sdToItem (fillDefaults (ensureDefault d))) = some (sdToItem w0) := by
    rw [alLookup_mapVals, hd2def]
    rfl
  have hstored : ∀ t,
      alLookup t (alMapVals SDVal.item
        (packStyleSet (alMapVals sdToItem (fillDefaults (ensureDefault d)))))
      = (alLookup t (fillDefaults (ensureDefault d))).map
          (fun v =>
            SDVal.item
              (if (sdToItem v).null then sdToItem v
               else packFill (sdToItem v) (sdToItem w0))) := by
    intro t
    rw [alLookup_mapVals, alLookup_pack _ _ _ hpackdef, alLookup_mapVals]
    cases alLookup t (fillDefaults (ensureDefault d)) <;> rfl
  refine ⟨alMapVals SDVal.item
    (packStyleSet (alMapVals sdToItem (fillDefaults (ensureDefault d)))), ?_, ?_, ?_⟩
  · rw [heq]
  · rw [heq]
    exact alLookup_alSet_self _ _ _
  · intro tag htag
    obtain ⟨x, hx⟩ : ∃ x, alLookup tag DEF_STYLE_DICT = some x := by
      cases hh : alLookup tag DEF_STYLE_DICT with
      | none => rw [hh] at htag; cases htag
      | some x => exact ⟨x, rfl⟩
    have hmem := alLookup_mem _ _ _ hx
    constructor
    · have hcov := alLookup_fillDefaults_covers (ensureDefault d) tag x hmem
      rw [hstored tag]
      cases hc : alLookup tag (fillDefaults (ensureDefault d)) with
      | none => rw [hc] at hcov; cases hcov
      | some v => simp
    · intro hdnone
      by_cases htagdef : tag = chars "default_style"
      · subst htagdef
        refine ⟨fun hres => absurd hres (by decide), fun _ => rfl⟩
      · have hd1none : alLookup tag (ensureDefault d) = none := by
          unfold ensureDefault
          cases hd : alLookup (chars "default_style") d with
          | some dv => exact hdnone
          | none =>
            rw [alLookup_alSet_ne _ _ _ _ htagdef]
            exact hdnone
        have habs := alLookup_fillDefaults_absent (ensureDefault d) tag x w0
          hd1def hd1none hmem
        constructor
        · intro hres
          rw [hstored tag, habs, if_pos hres]
          rfl
        · intro hres
          rw [hstored tag, habs, if_neg (by simp [hres]), hstored (chars "default_style"),
            hd2def]

/-- Witness for C4 at a concrete one-entry mapping. -/
theorem c4_merge_superset_witness :
    c4Dict.all (fun p => p.2.isItem) = true ∧
    ∃ stored,
      (setStyles zState (chars "n") c4Dict false).2 = .ok true ∧
      alLookup (chars "n") (setStyles zState (chars "n") c4Dict false).1.styles = some stored ∧
      ∀ tag, (alLookup tag DEF_STYLE_DICT).isSome = true →
        (alLookup tag stored).isSome = true ∧
        (alLookup tag c4Dict = none →
          (isReservedTag tag = true → alLookup tag stored = some (SDVal.item nullStyleItem)) ∧
          (isReservedTag tag = false →
            alLookup tag stored = alLookup (chars "default_style") stored)) :=
  ⟨by decide, c4_merge_superset zState (chars "n") c4Dict (by decide)⟩

/-! ### Helper lemmas: splitting and joining canonical strings -/

theorem splitOnChar_of_not_mem (sep : Char) (s : Str) (h : sep ∉ s) :
    splitOnChar sep s = [s] := by
  induction s with
  | nil => rfl
  | cons c rest ih =>
    simp only [List.mem_cons, not_or] at h
    unfold splitOnChar
    rw [if_neg (fun he => h.1 (he.symm)), ih h.2]

theorem splitOnChar_append (sep : Char) (x r : Str) (h : sep ∉ x) :
    splitOnChar sep (x ++ sep :: r) = x :: splitOnChar sep r := by
  induction x with
  | nil =>
    rw [List.nil_append]
    conv_lhs => rw [splitOnChar]
    rw [if_pos rfl]
  | cons c x ih =>
    simp only [List.mem_cons, not_or] at h
    rw [List.cons_append]
    conv_lhs => rw [splitOnChar]
    rw [if_neg (fun he => h.1 (he.symm)), ih h.2]

theorem splitOnChar_joinComma (l : List Str) (hne : l ≠ [])
    (hcf : ∀ a ∈ l, ',' ∉ a) : splitOnChar ',' (joinComma l) = l := by
  induction l with
  | nil => exact absurd rfl hne
  | cons x t ih =>
    cases t with
    | nil =>
      exact splitOnChar_of_not_mem ',' x (hcf x (List.mem_cons_self _ _))
    | cons y t' =>
      rw [show joinComma (x :: y :: t') = x ++ ',' :: joinComma (y :: t') from rfl]
      rw [splitOnChar_append ',' x _ (hcf x (List.mem_cons_self _ _))]
      rw [ih (by simp) (fun a ha => hcf a (List.mem_cons_of_mem _ ha))]

theorem joinComma_cons_of_ne_nil (x : Str) (l : List Str) (h : l ≠ []) :
    joinComma (x :: l) = x ++ ',' :: joinComma l := by
  cases l with
  | nil => exact absurd rfl h
  | cons y t => rfl

theorem joinComma_append_singleton_ne_nil (xs : List Str) (z : Str) (hz : z ≠ []) :
    joinComma (xs ++ [z]) ≠ [] := by
  induction xs with
  | nil => simpa [joinComma] using hz
  | cons x xs ih =>
    rw [List.cons_append, joinComma_cons_of_ne_nil x _ (by simp)]
    simp

theorem joinComma_append_last (xs : List Str) (a b : Str) :
    joinComma (xs ++ [a ++ b]) = joinComma (xs ++ [a]) ++ b := by
  induction xs with
  | nil => rfl
  | cons x xs ih =>
    rw [List.cons_append, joinComma_cons_of_ne_nil x _ (by simp),
      List.cons_append, joinComma_cons_of_ne_nil x _ (by simp), ih]
    simp

theorem joinComma_append_cons_cons (xs : List Str) (y z : Str) (zs : List Str) :
    joinComma (xs ++ y :: z :: zs) = joinComma (xs ++ [y]) ++ ',' :: joinComma (z :: zs) := by
  induction xs with
  | nil =>
    rw [List.nil_append, joinComma_cons_of_ne_nil y _ (by simp)]
    rfl
  | cons x xs ih =>
    rw [List.cons_append, joinComma_cons_of_ne_nil x _ (by simp),
      List.cons_append, joinComma_cons_of_ne_nil x _ (by simp), ih]
    simp

theorem getLast?_joinComma (xs : List Str) (z : Str) (hz : z ≠ []) :
    (joinComma (xs ++ [z])).getLast? = z.getLast? := by
  induction xs with
  | nil => rfl
  | cons x xs ih =>
    rw [List.cons_append, joinComma_cons_of_ne_nil x _ (by simp)]
    rw [List.getLast?_append_of_ne_nil _ (by simp)]
    cases hj : joinComma (xs ++ [z]) with
    | nil => exact absurd hj (joinComma_append_singleton_ne_nil xs z hz)
    | cons c t =>
      rw [List.getLast?_cons_cons, ← hj, ih]

theorem rstripComma_eq_self (s : Str) (h : ∀ c, s.getLast? = some c → ¬ c = ',') :
    rstripComma s = s := by
  cases hs : s.reverse with
  | nil =>
    have : s = [] := by simpa using congrArg List.reverse hs
    subst this
    rfl
  | cons c t =>
    have hseq : s = t.reverse ++ [c] := by
      have := congrArg List.reverse hs
      simpa using this
    have hcs : s.getLast? = some c := by
      rw [hseq, List.getLast?_append_of_ne_nil _ (by simp)]
      rfl
    have hc := h c hcs
    unfold rstripComma
    rw [hs, List.dropWhile_cons_of_neg (by simpa using hc), ← hs, List.reverse_reverse]

/-! ### Helper lemmas: processing canonical atoms -/

theorem canonical_mod_cases (m : Str) (h : m ∈ canonicalMods) :
    m = chars "eol" ∨ m = chars "bold" ∨ m = chars "italic" ∨ m = chars "underline" := by
  simpa [canonicalMods] using h

theorem canonical_mod_facts (m : Str) (h : m ∈ canonicalMods) :
    ':' ∉ m ∧ ',' ∉ m ∧ pySubstr m STY_EX_ATTRIBUTES = true ∧ m ≠ [] := by
  rcases canonical_mod_cases m h with h | h | h | h <;> subst h <;> refine ⟨by decide, by decide, by decide, by decide⟩

theorem scalar_name_facts (a : Str)
    (h : a = chars "fore" ∨ a = chars "back" ∨ a = chars "face" ∨ a = chars "size") :
    ':' ∉ a ∧ ',' ∉ a ∧ pySubstr a STY_ATTRIBUTES = true ∧
      ¬ a = chars "modifiers" ∧ a ≠ [] := by
  rcases h with h | h | h | h <;> subst h <;> refine ⟨by decide, by decide, by decide, by decide, by decide⟩

theorem setAttrAtom_scalar (it : StyleItem) (ls a v : Str)
    (h : a = chars "fore" ∨ a = chars "back" ∨ a = chars "face" ∨ a = chars "size")
    (hv : ':' ∉ v) :
    setAttrAtom (it, ls) (a ++ ':' :: v) = (setScalarField it a v, a) := by
  obtain ⟨hc, _, hsub, hnm, _⟩ := scalar_name_facts a h
  have hsplit : splitOnChar ':' (a ++ ':' :: v) = [a, v] := by
    rw [splitOnChar_append ':' a v hc, splitOnChar_of_not_mem ':' v hv]
  unfold setAttrAtom
  rw [hsplit]
  dsimp only
  rw [if_pos hsub, if_neg hnm]

theorem setAttrAtom_modifiers (it : StyleItem) (ls m : Str) (hm : ':' ∉ m) :
    setAttrAtom (it, ls) (chars "modifiers:" ++ m) = (setExAttr it m, chars "modifiers") := by
  rw [show chars "modifiers:" ++ m = chars "modifiers" ++ ':' :: m from rfl]
  have hsplit : splitOnChar ':' (chars "modifiers" ++ ':' :: m) = [chars "modifiers", m] := by
    rw [splitOnChar_append ':' _ _ (by decide), splitOnChar_of_not_mem ':' m hm]
  unfold setAttrAtom
  rw [hsplit]
  dsimp only
  rw [if_pos (by decide : pySubstr (chars "modifiers") STY_ATTRIBUTES = true), if_pos rfl]

theorem setAttrAtom_bare (it : StyleItem) (ls m : Str) (hm : ':' ∉ m)
    (hsub : pySubstr m STY_EX_ATTRIBUTES = true) :
    setAttrAtom (it, ls) m = (setExAttr it m, ls) := by
  have hsplit : splitOnChar ':' m = [m] := splitOnChar_of_not_mem ':' m hm
  unfold setAttrAtom
  rw [hsplit]
  dsimp only
  rw [List.foldl_cons, List.foldl_nil, if_pos hsub]

theorem foldl_scalarAtoms (ps : List (Str × Str)) :
    ∀ (it : StyleItem) (ls : Str),
      (∀ p ∈ ps,
        (p.1 = chars "fore" ∨ p.1 = chars "back" ∨ p.1 = chars "face" ∨ p.1 = chars "size") ∧
        ':' ∉ p.2) →
      ∃ ls', (ps.map (fun p => p.1 ++ ':' :: p.2)).foldl setAttrAtom (it, ls)
        = (ps.foldl (fun acc p => setScalarField acc p.1 p.2) it, ls') := by
  induction ps with
  | nil => exact fun it ls _ => ⟨ls, rfl⟩
  | cons p ps ih =>
    intro it ls h
    have hp := h p (List.mem_cons_self _ _)
    rw [List.map_cons, List.foldl_cons, setAttrAtom_scalar it ls p.1 p.2 hp.1 hp.2,
      List.foldl_cons]
    exact ih _ _ (fun q hq => h q (List.mem_cons_of_mem _ hq))

theorem foldl_bareMods (ms : List Str) :
    ∀ (it : StyleItem) (ls : Str), (∀ m ∈ ms, m ∈ canonicalMods) →
      ms.foldl setAttrAtom (it, ls) = (ms.foldl setExAttr it, ls) := by
  induction ms with
  | nil => intro it ls _; rfl
  | cons m ms ih =>
    intro it ls h
    obtain ⟨hc, _, hsub, _⟩ := canonical_mod_facts m (h m (List.mem_cons_self _ _))
    rw [List.foldl_cons, setAttrAtom_bare it ls m hc hsub, List.foldl_cons]
    exact ih _ _ (fun x hx => h x (List.mem_cons_of_mem _ hx))

theorem foldl_setExAttr_app (ms : List Str) :
    ∀ it : StyleItem, (∀ m ∈ ms, pySubstr m STY_EX_ATTRIBUTES = true) → ms.Nodup →
      (∀ m ∈ ms, m ∉ it.exattr) → it.null = false →
      ms.foldl setExAttr it = { it with exattr := it.exattr ++ ms } := by
  induction ms with
  | nil =>
    intro it _ _ _ _
    simp
  | cons m ms ih =>
    intro it hsub hnd hdis hnull
    simp only [List.nodup_cons] at hnd
    have hstep : setExAttr it m = { it with null := false, exattr := it.exattr ++ [m] } := by
      unfold setExAttr
      rw [if_pos (hsub m (List.mem_cons_self _ _)),
        if_neg (hdis m (List.mem_cons_self _ _))]
    rw [List.foldl_cons, hstep,
      ih _ (fun x hx => hsub x (List.mem_cons_of_mem _ hx)) hnd.2 ?_ rfl]
    · obtain ⟨n, fo, fa, ba, sz, ex⟩ := it
      simp only at hnull
      subst hnull
      simp
    · intro x hx
      simp only [List.mem_append, List.mem_singleton, not_or]
      exact ⟨hdis x (List.mem_cons_of_mem _ hx), fun he => hnd.1 (he ▸ hx)⟩

theorem setScalarField_fore (it : StyleItem) (v : Str) :
    setScalarField it (chars "fore") v = { it with fore := v } := rfl

theorem setScalarField_back (it : StyleItem) (v : Str) :
    setScalarField it (chars "back") v = { it with back := v } := rfl

theorem setScalarField_face (it : StyleItem) (v : Str) :
    setScalarField it (chars "face") v = { it with face := v } := rfl

theorem setScalarField_size (it : StyleItem) (v : Str) :
    setScalarField it (chars "size") v = { it with size := v } := rfl

theorem optPair_mem (name : String) (o : Option Str) (p : Str × Str)
    (h : p ∈ optPair name o) : ∃ v, o = some v ∧ p = (chars name, v) := by
  cases o with
  | none => cases h
  | some v =>
    simp only [optPair, List.mem_singleton] at h
    exact ⟨v, rfl, h⟩

theorem scalarPairs_mem (f b fc sz : Option Str) (p : Str × Str)
    (hf : goodOpt f) (hb : goodOpt b) (hfc : goodOpt fc) (hsz : goodOpt sz)
    (hp : p ∈ scalarPairs f b fc sz) :
    (p.1 = chars "fore" ∨ p.1 = chars "back" ∨ p.1 = chars "face" ∨ p.1 = chars "size") ∧
      goodScalarVal p.2 := by
  unfold scalarPairs at hp
  rcases List.mem_append.mp hp with h1 | h1
  · rcases List.mem_append.mp h1 with h2 | h2
    · rcases List.mem_append.mp h2 with h3 | h3
      · obtain ⟨v, hv, rfl⟩ := optPair_mem _ _ _ h3
        exact ⟨Or.inl rfl, by rw [hv] at hf; exact hf⟩
      · obtain ⟨v, hv, rfl⟩ := optPair_mem _ _ _ h3
        exact ⟨Or.inr (Or.inl rfl), by rw [hv] at hb; exact hb⟩
    · obtain ⟨v, hv, rfl⟩ := optPair_mem _ _ _ h2
      exact ⟨Or.inr (Or.inr (Or.inl rfl)), by rw [hv] at hfc; exact hfc⟩
  · obtain ⟨v, hv, rfl⟩ := optPair_mem _ _ _ h1
    exact ⟨Or.inr (Or.inr (Or.inr rfl)), by rw [hv] at hsz; exact hsz⟩

theorem scalarPairs_foldl (f b fc sz : Option Str) :
    (scalarPairs f b fc sz).foldl (fun acc p => setScalarField acc p.1 p.2) emptyStyleItem
      = canonicalItem f b fc sz [] := by
  rcases f with _ | vf <;> rcases b with _ | vb <;> rcases fc with _ | vc <;>
    rcases sz with _ | vs <;>
    simp [scalarPairs, optPair, canonicalItem, setScalarField_fore, setScalarField_back,
      setScalarField_face, setScalarField_size, emptyStyleItem]

theorem canonicalAtoms_comma_free (f b fc sz : Option Str) (mods : List Str)
    (hf : goodOpt f) (hb : goodOpt b) (hfc : goodOpt fc) (hsz : goodOpt sz)
    (hm : ∀ m ∈ mods, m ∈ canonicalMods) :
    ∀ a ∈ canonicalAtoms f b fc sz mods, ',' ∉ a := by
  intro a ha
  unfold canonicalAtoms at ha
  rcases List.mem_append.mp ha with h1 | h1
  · obtain ⟨p, hp, rfl⟩ := List.mem_map.mp h1
    obtain ⟨hname, hgood⟩ := scalarPairs_mem f b fc sz p hf hb hfc hsz hp
    obtain ⟨_, hnc, _, _, _⟩ := scalar_name_facts p.1 hname
    simp only [List.mem_append, List.mem_cons, not_or]
    exact ⟨hnc, by decide, hgood.2.1⟩
  · cases mods with
    | nil => cases h1
    | cons m ms =>
      rcases List.mem_cons.mp h1 with h2 | h2
      · subst h2
        have hmf := canonical_mod_facts m (hm m (List.mem_cons_self _ _))
        simp only [List.mem_append, not_or]
        exact ⟨by decide, hmf.2.1⟩
      · exact (canonical_mod_facts a (hm a (List.mem_cons_of_mem _ h2))).2.1

theorem canonicalAtoms_ne_empty (f b fc sz : Option Str) (mods : List Str)
    (hm : ∀ m ∈ mods, m ∈ canonicalMods) :
    ∀ a ∈ canonicalAtoms f b fc sz mods, a ≠ [] := by
  intro a ha
  unfold canonicalAtoms at ha
  rcases List.mem_append.mp ha with h1 | h1
  · obtain ⟨p, hp, rfl⟩ := List.mem_map.mp h1
    simp
  · cases mods with
    | nil => cases h1
    | cons m ms =>
      rcases List.mem_cons.mp h1 with h2 | h2
      · subst h2
        simp [chars]
      · exact (canonical_mod_facts a (hm a (List.mem_cons_of_mem _ h2))).2.2.2

theorem setAttr_canonical (f b fc sz : Option Str) (mods : List Str)
    (hf : goodOpt f) (hb : goodOpt b) (hfc : goodOpt fc) (hsz : goodOpt sz)
    (hm : ∀ m ∈ mods, m ∈ canonicalMods) (hnd : mods.Nodup)
    (hne : canonicalAtoms f b fc sz mods ≠ []) :
    (setAttrFromStr emptyStyleItem (canonicalStr f b fc sz mods)).1
      = canonicalItem f b fc sz mods := by
  have hcf := canonicalAtoms_comma_free f b fc sz mods hf hb hfc hsz hm
  have hpairs : ∀ p ∈ scalarPairs f b fc sz,
      (p.1 = chars "fore" ∨ p.1 = chars "back" ∨ p.1 = chars "face" ∨ p.1 = chars "size") ∧
        ':' ∉ p.2 :=
    fun p hp =>
      let h := scalarPairs_mem f b fc sz p hf hb hfc hsz hp
      ⟨h.1, h.2.2.2⟩
  unfold setAttrFromStr
  dsimp only
  rw [show ({ emptyStyleItem with null := false } : StyleItem) = emptyStyleItem from rfl]
  unfold canonicalStr
  rw [splitOnChar_joinComma _ hne hcf]
  unfold canonicalAtoms
  cases mods with
  | nil =>
    rw [List.append_nil]
    obtain ⟨ls', hfold⟩ := foldl_scalarAtoms (scalarPairs f b fc sz) emptyStyleItem [] hpairs
    rw [hfold, scalarPairs_foldl]
  | cons m ms =>
    rw [List.foldl_append]
    obtain ⟨ls', hfold⟩ := foldl_scalarAtoms (scalarPairs f b fc sz) emptyStyleItem [] hpairs
    rw [hfold, scalarPairs_foldl]
    have hmfacts := canonical_mod_facts m (hm m (List.mem_cons_self _ _))
    rw [List.foldl_cons,
      setAttrAtom_modifiers (canonicalItem f b fc sz []) ls' m hmfacts.1,
      foldl_bareMods ms _ _ (fun x hx => hm x (List.mem_cons_of_mem _ hx))]
    have happ := foldl_setExAttr_app (m :: ms) (canonicalItem f b fc sz [])
      (fun x hx => (canonical_mod_facts x (hm x hx)).2.2.1) hnd
      (fun x _ => by simp [canonicalItem]) rfl
    rw [show ms.foldl setExAttr (setExAttr (canonicalItem f b fc sz []) m)
        = (m :: ms).foldl setExAttr (canonicalItem f b fc sz []) from rfl, happ]
    rfl

theorem chars_colon_fore (v : Str) : chars "fore" ++ ':' :: v = chars "fore:" ++ v := rfl

theorem chars_colon_back (v : Str) : chars "back" ++ ':' :: v = chars "back:" ++ v := rfl

theorem chars_colon_face (v : Str) : chars "face" ++ ':' :: v = chars "face:" ++ v := rfl

theorem chars_colon_size (v : Str) : chars "size" ++ ':' :: v = chars "size:" ++ v := rfl

theorem styleItemStr_parts (f b fc sz : Option Str) (mods : List Str)
    (hf : goodOpt f) (hb : goodOpt b) (hfc : goodOpt fc) (hsz : goodOpt sz) :
    styleItemStr (canonicalItem f b fc sz mods)
      = rstripComma (joinComma
          ((scalarPairs f b fc sz).map (fun p => p.1 ++ ':' :: p.2) ++
            (match mods with
             | [] => []
             | _ :: _ => [chars "modifiers:" ++ joinComma mods]))) := by
  cases mods <;>
    rcases f with _ | vf <;> rcases b with _ | vb <;> rcases fc with _ | vc <;>
    rcases sz with _ | vs <;>
    simp_all [styleItemStr, canonicalItem, scalarPairs, optPair, goodOpt, goodScalarVal,
      chars_colon_fore, chars_colon_back, chars_colon_face, chars_colon_size]

theorem joinComma_mods_flatten (X : List Str) (mods : List Str) :
    joinComma (X ++ (match mods with
      | [] => []
      | _ :: _ => [chars "modifiers:" ++ joinComma mods]))
    = joinComma (X ++ (match mods with
      | [] => []
      | m :: ms => (chars "modifiers:" ++ m) :: ms)) := by
  cases mods with
  | nil => rfl
  | cons m ms =>
    cases ms with
    | nil => rfl
    | cons z zs =>
      rw [show chars "modifiers:" ++ joinComma (m :: z :: zs)
          = (chars "modifiers:" ++ m) ++ (',' :: joinComma (z :: zs)) by
        rw [joinComma_cons_of_ne_nil m _ (by simp)]
        simp]
      rw [joinComma_append_last, joinComma_append_cons_cons]

theorem rstripComma_canonicalStr (f b fc sz : Option Str) (mods : List Str)
    (hf : goodOpt f) (hb : goodOpt b) (hfc : goodOpt fc) (hsz : goodOpt sz)
    (hm : ∀ m ∈ mods, m ∈ canonicalMods)
    (hne : canonicalAtoms f b fc sz mods ≠ []) :
    rstripComma (canonicalStr f b fc sz mods) = canonicalStr f b fc sz mods := by
  apply rstripComma_eq_self
  intro c hc
  rcases List.eq_nil_or_concat (canonicalAtoms f b fc sz mods) with hnil | ⟨L, z, hLz⟩
  · exact absurd hnil hne
  · rw [List.concat_eq_append] at hLz
    have hzmem : z ∈ canonicalAtoms f b fc sz mods := by
      rw [hLz]
      exact List.mem_append_right _ (List.mem_singleton_self z)
    have hz : z ≠ [] := canonicalAtoms_ne_empty f b fc sz mods hm z hzmem
    have hcz : canonicalStr f b fc sz mods = joinComma (L ++ [z]) := by
      rw [canonicalStr, hLz]
    rw [hcz, getLast?_joinComma L z hz] at hc
    have hcmem : c ∈ z := by
      obtain ⟨hh, hceq⟩ := List.mem_getLast?_eq_getLast (Option.mem_def.mpr hc)
      rw [hceq]
      exact List.getLast_mem hh
    have hzcf : ',' ∉ z :=
      canonicalAtoms_comma_free f b fc sz mods hf hb hfc hsz hm z hzmem
    exact fun heq => hzcf (heq ▸ hcmem)

theorem styleItemStr_canonical (f b fc sz : Option Str) (mods : List Str)
    (hf : goodOpt f) (hb : goodOpt b) (hfc : goodOpt fc) (hsz : goodOpt sz)
    (hm : ∀ m ∈ mods, m ∈ canonicalMods)
    (hne : canonicalAtoms f b fc sz mods ≠ []) :
    styleItemStr (canonicalItem f b fc sz mods) = canonicalStr f b fc sz mods := by
  rw [styleItemStr_parts f b fc sz mods hf hb hfc hsz, joinComma_mods_flatten]
  exact rstripComma_canonicalStr f b fc sz mods hf hb hfc hsz hm hne

/-- C6: a StyleItem built by `SetAttrFromStr` from a canonical attribute
string (well-formed values, attributes in the fixed order fore, back, face,
size, modifiers, comma-joined) serializes back to exactly the same string,
with no trailing comma. -/
theorem c6_roundtrip (f b fc sz : Option Str) (mods : List Str)
    (hf : goodOpt f) (hb : goodOpt b) (hfc : goodOpt fc) (hsz : goodOpt sz)
    (hm : ∀ m ∈ mods, m ∈ canonicalMods) (hnd : mods.Nodup)
    (hne : canonicalAtoms f b fc sz mods ≠ []) :
    styleItemStr (setAttrFromStr emptyStyleItem (canonicalStr f b fc sz mods)).1
      = canonicalStr f b fc sz mods := by
  rw [setAttr_canonical f b fc sz mods hf hb hfc hsz hm hnd hne]
  exact styleItemStr_canonical f b fc sz mods hf hb hfc hsz hm hne

/-- Witness for C6 at a concrete canonical string with a spaced font name
and two modifiers. -/
theorem c6_roundtrip_witness :
    goodOpt (some (chars "#000000")) ∧ goodOpt (none : Option Str) ∧
    goodOpt (some (chars "Courier New")) ∧ goodOpt (some (chars "10")) ∧
    (∀ m ∈ [chars "bold", chars "eol"], m ∈ canonicalMods) ∧
    ([chars "bold", chars "eol"] : List Str).Nodup ∧
    canonicalAtoms (some (chars "#000000")) none (some (chars "Courier New"))
      (some (chars "10")) [chars "bold", chars "eol"] ≠ [] ∧
    styleItemStr (setAttrFromStr emptyStyleItem
        (canonicalStr (some (chars "#000000")) none (some (chars "Courier New"))
          (some (chars "10")) [chars "bold", chars "eol"])).1
      = canonicalStr (some (chars "#000000")) none (some (chars "Courier New"))
          (some (chars "10")) [chars "bold", chars "eol"] :=
  ⟨⟨by decide, by decide, by decide⟩, trivial,
   ⟨by decide, by decide, by decide⟩, ⟨by decide, by decide, by decide⟩,
   by decide, by decide, by decide,
   c6_roundtrip _ _ _ _ _ ⟨by decide, by decide, by decide⟩ trivial
     ⟨by decide, by decide, by decide⟩ ⟨by decide, by decide, by decide⟩
     (by decide) (by decide) (by decide)⟩
